import Mathlib

/-!
# Kiosk media player agent (`main.go`): a shallow embedding

Go strings are byte sequences; they are modelled as lists of byte values.
Iteration over a string (`for _, r := range s`) decodes UTF-8 the way the Go
runtime does: an invalid byte yields the replacement rune `0xFFFD` and the
iteration advances by one byte.
-/

namespace Kiosk

/-! ## Go strings -/

/-- A Go string: its bytes, in order. -/
abbrev GoString := List Nat

/-- Rune yielded for an invalid UTF-8 sequence (`utf8.RuneError`). -/
def runeError : Nat := 0xFFFD

/-- Bytes below `utf8.RuneSelf` are runes by themselves. -/
def runeSelf : Nat := 0x80

/-- Continuation byte test (`locb <= b && b <= hicb`). -/
def isCont (b : Nat) : Bool := 0x80 ≤ b && b ≤ 0xBF

/-- The runtime decoder `decoderune`, called on a string whose first byte is
not below `runeSelf`: the decoded rune and the number of bytes consumed. -/
def decoderune : GoString → Nat × Nat
  | [] => (runeError, 1)
  | b0 :: rest =>
    if 0xC0 ≤ b0 ∧ b0 < 0xE0 then
      match rest with
      | b1 :: _ =>
        if isCont b1 then
          let r := (b0 % 0x20) * 0x40 + b1 % 0x40
          if 0x7F < r then (r, 2) else (runeError, 1)
        else (runeError, 1)
      | _ => (runeError, 1)
    else if 0xE0 ≤ b0 ∧ b0 < 0xF0 then
      match rest with
      | b1 :: b2 :: _ =>
        if isCont b1 && isCont b2 then
          let r := (b0 % 0x10) * 0x1000 + (b1 % 0x40) * 0x40 + b2 % 0x40
          if 0x7FF < r ∧ ¬ (0xD800 ≤ r ∧ r ≤ 0xDFFF) then (r, 3) else (runeError, 1)
        else (runeError, 1)
      | _ => (runeError, 1)
    else if 0xF0 ≤ b0 ∧ b0 < 0xF8 then
      match rest with
      | b1 :: b2 :: b3 :: _ =>
        if isCont b1 && isCont b2 && isCont b3 then
          let r := (b0 % 0x08) * 0x40000 + (b1 % 0x40) * 0x1000 + (b2 % 0x40) * 0x40 + b3 % 0x40
          if 0xFFFF < r ∧ r ≤ 0x10FFFF then (r, 4) else (runeError, 1)
        else (runeError, 1)
      | _ => (runeError, 1)
    else (runeError, 1)

/-- The runes of `for _, r := range s`, where `skip` bytes of `s` still belong
to the rune yielded last. -/
def rangeFrom : Nat → GoString → List Nat
  | _, [] => []
  | skip + 1, _ :: rest => rangeFrom skip rest
  | 0, b :: rest =>
    if b < runeSelf then b :: rangeFrom 0 rest
    else (decoderune (b :: rest)).1 :: rangeFrom ((decoderune (b :: rest)).2 - 1) rest

/-- The runes yielded by `for _, r := range s`. -/
def runes (s : GoString) : List Nat := rangeFrom 0 s

/-- UTF-8 encoding of a rune (`utf8.AppendRune`), as `Builder.WriteRune` appends it. -/
def encodeRune (r : Nat) : GoString :=
  if r ≤ 0x7F then [r]
  else if r ≤ 0x7FF then [0xC0 + r / 0x40, 0x80 + r % 0x40]
  else if 0x10FFFF < r ∨ (0xD800 ≤ r ∧ r ≤ 0xDFFF) then [0xEF, 0xBF, 0xBD]
  else if r ≤ 0xFFFF then [0xE0 + r / 0x1000, 0x80 + (r / 0x40) % 0x40, 0x80 + r % 0x40]
  else [0xF0 + r / 0x40000, 0x80 + (r / 0x1000) % 0x40, 0x80 + (r / 0x40) % 0x40, 0x80 + r % 0x40]

/-- The Go string denoted by a string literal (its UTF-8 bytes). -/
def lit (s : String) : GoString := s.toList.flatMap fun c => encodeRune c.toNat

/-! ## `fileID` -/

/-- The test of `fileID`: `a-z`, `A-Z`, `0-9`, `-` and `_`. -/
def safeRune (r : Nat) : Bool :=
  (0x61 ≤ r && r ≤ 0x7A) || (0x41 ≤ r && r ≤ 0x5A) || (0x30 ≤ r && r ≤ 0x39)
    || r == 0x2D || r == 0x5F

/-- One iteration of the loop of `fileID`: the builder after the rune `r`. -/
def fileIDStep (b : GoString) (r : Nat) : GoString :=
  if safeRune r then b ++ encodeRune r else b ++ encodeRune 0x5F

/-- Go `fileID`: a safe file name from an id. -/
def fileID (id : GoString) : GoString :=
  let s := (runes id).foldl fileIDStep []
  if s = [] then lit "media" else s

/-! ## The `strings` and `filepath` functions the program calls -/

/-- Go `strings.HasPrefix`. -/
def HasPrefix (s pre : GoString) : Bool :=
  decide (pre.length ≤ s.length) && s.take pre.length == pre

/-- Go `strings.HasSuffix`. -/
def HasSuffix (s suf : GoString) : Bool :=
  decide (suf.length ≤ s.length) && s.drop (s.length - suf.length) == suf

/-- Go `strings.TrimSuffix`. -/
def TrimSuffix (s suf : GoString) : GoString :=
  if HasSuffix s suf then s.take (s.length - suf.length) else s

/-- Go `strings.Contains`: `substr` starts at some index of `s`. -/
def Contains (s substr : GoString) : Bool :=
  match s with
  | [] => HasPrefix [] substr
  | c :: t => HasPrefix (c :: t) substr || Contains t substr

/-- An ASCII upper-case letter. -/
def isUpperByte (c : Nat) : Bool := 0x41 ≤ c && c ≤ 0x5A

/-- Go `strings.ToLower`. An ASCII-only string is lowered byte by byte; any other
string goes through `strings.Map(unicode.ToLower, s)`, which depends on the
Unicode tables of the Go library and is the parameter `mapLower`. -/
def ToLower (mapLower : GoString → GoString) (s : GoString) : GoString :=
  if s.all (fun c => c < runeSelf) then
    if s.any isUpperByte then s.map (fun c => if isUpperByte c then c + 0x20 else c) else s
  else mapLower s

/-- The loop of `filepath.Ext`, scanning from the end: `before` holds the bytes
up to the current index, nearest first, and `after` the bytes behind it. -/
def extScan : List Nat → GoString → GoString
  | [], _ => []
  | c :: before, after =>
    if c = 0x2F then []
    else if c = 0x2E then c :: after
    else extScan before (c :: after)

/-- Go `filepath.Ext`: the suffix from the final dot of the last path element. -/
def Ext (path : GoString) : GoString := extScan path.reverse []

/-! ## `extFromURL` -/

/-- The extensions tried by `extFromURL`, in order. -/
def videoExts : List GoString := [lit ".mkv", lit ".mp4", lit ".avi", lit ".webm"]

/-- The loop of `extFromURL` over the remaining extensions. -/
def extLoop (u : GoString) : List GoString → GoString
  | [] => lit ".mp4"
  | e :: rest => if Contains u e then e else extLoop u rest

/-- Go `extFromURL`. -/
def extFromURL (mapLower : GoString → GoString) (url : GoString) : GoString :=
  extLoop (ToLower mapLower url) videoExts

/-! ## The media directory -/

/-- A manifest entry (`MediaItem`). -/
structure MediaItem where
  ID : GoString
  URL : GoString
  Name : GoString
  deriving DecidableEq, Repr

/-- An entry of the media directory as `os.ReadDir` reports it. -/
structure DirEntry where
  name : GoString
  isDir : Bool
  deriving DecidableEq, Repr

/-- The contents of the media directory. -/
abbrev Dir := List DirEntry

/-- A regular file called `n` is in the directory. -/
def hasFile (d : Dir) (n : GoString) : Bool := d.any fun e => e.name == n && !e.isDir

/-- A subdirectory called `n` is in the directory. -/
def hasDir (d : Dir) (n : GoString) : Bool := d.any fun e => e.name == n && e.isDir

/-- What the file system answers during one reconciliation. -/
structure FsOracle where
  /-- Whether `os.ReadDir` succeeds. -/
  readDirOk : Bool
  /-- Whether `os.Remove` succeeds on the given name. -/
  removeOk : GoString → Bool

/-- Go `os.Remove` on a name of the media directory. -/
def osRemove (fs : FsOracle) (n : GoString) (d : Dir) : Dir :=
  if fs.removeOk n then d.filter (fun e => e.name != n) else d

/-- The stem that `cleanupByIDs` computes: `strings.TrimSuffix(base, filepath.Ext(base))`. -/
def stem (base : GoString) : GoString := TrimSuffix base (Ext base)

/-- The body of the loop of `cleanupByIDs` for the entry `e`. -/
def cleanupStep (fs : FsOracle) (keepIDs : GoString → Bool) (d : Dir) (e : DirEntry) : Dir :=
  if e.isDir then d
  else
    let base := e.name
    let ext := Ext base
    let id := TrimSuffix base ext
    if id = [] then d
    else if !keepIDs id then osRemove fs base d
    else d

/-- Go `cleanupByIDs`: the directory after it ran (`keepIDs` is the map lookup,
false for an absent key). -/
def cleanupByIDs (fs : FsOracle) (d : Dir) (keepIDs : GoString → Bool) : Dir :=
  if fs.readDirOk then d.foldl (cleanupStep fs keepIDs) d else d

/-- What happens when one item is downloaded. -/
structure Download where
  /-- Status of the response; `none` when the request fails before a response. -/
  respStatus : Option Nat
  /-- Whether `os.Create` succeeds on a path that is not a directory. -/
  createOk : Bool
  /-- Whether `io.Copy` of the body succeeds. -/
  copyOk : Bool

/-- Go `os.Create` on a name of the media directory that is not a directory. -/
def osCreate (n : GoString) (d : Dir) : Dir :=
  if d.any (fun e => e.name == n) then d else d ++ [⟨n, false⟩]

/-- Go `downloadFile` into the file `n` of the media directory: the directory
afterwards and whether the error is nil. -/
def downloadFile (o : Download) (n : GoString) (d : Dir) : Dir × Bool :=
  match o.respStatus with
  | none => (d, false)
  | some code =>
    if code ≠ 200 then (d, false)
    else if hasDir d n || !o.createOk then (d, false)
    else (osCreate n d, o.copyOk)

/-- The loop of `downloadMedia` from item number `i` on; `dl i` is the outcome
of the download of item `i`. The downloaded paths are kept as base names. -/
def downloadLoop (mapLower : GoString → GoString) (dl : Nat → Download) :
    Nat → List MediaItem → Dir → List GoString → Dir × List GoString
  | _, [], d, downloaded => (d, downloaded)
  | i, it :: rest, d, downloaded =>
    if it.URL = [] then downloadLoop mapLower dl (i + 1) rest d downloaded
    else
      let ext := extFromURL mapLower it.URL
      let name := fileID it.ID ++ ext
      let r := downloadFile (dl i) name d
      if !r.2 then downloadLoop mapLower dl (i + 1) rest r.1 downloaded
      else downloadLoop mapLower dl (i + 1) rest r.1 (downloaded ++ [name])

/-- Go `downloadMedia`: the directory afterwards and the downloaded names. -/
def downloadMedia (mapLower : GoString → GoString) (dl : Nat → Download)
    (d : Dir) (items : List MediaItem) : Dir × List GoString :=
  downloadLoop mapLower dl 0 items d []

/-- The test of `listVideoFiles` on an entry name. -/
def isVideoName (mapLower : GoString → GoString) (n : GoString) : Bool :=
  let name := ToLower mapLower n
  HasSuffix name (lit ".mkv") || HasSuffix name (lit ".mp4") ||
    HasSuffix name (lit ".avi") || HasSuffix name (lit ".webm")

/-- Go `listVideoFiles` on a directory that can be read, as base names. -/
def listVideoFiles (mapLower : GoString → GoString) (d : Dir) : List GoString :=
  (d.filter fun e => !e.isDir && isVideoName mapLower e.name).map DirEntry.name

/-! ## The control-plane client -/

/-- The outcome of an HTTP exchange; the body is given as decoded JSON. -/
inductive HttpResult (β : Type) where
  /-- The request could not be built (`http.NewRequest` fails). -/
  | requestError
  /-- The round trip fails (`httpClient.Do` returns an error). -/
  | transportError
  /-- The server answers. -/
  | response (statusCode : Nat) (body : β)

/-- The errors the client returns. -/
inductive Err where
  | macNotFound
  | request
  | transport
  | status (code : Nat)
  | decode
  | tokenInvalid
  deriving DecidableEq, Repr

/-- A check-in response body as `json.Decode` into `checkInResp` sees it. -/
inductive CheckInBody where
  /-- Not JSON, or not decodable into the struct. -/
  | malformed
  /-- A JSON object; `accessToken` is `none` when the key is absent. -/
  | object (accessToken : Option GoString)

/-- A media response body as `json.Decode` into `[]MediaItem` sees it. -/
inductive MediaBody where
  | malformed
  | array (items : List MediaItem)

/-- Go `checkIn`: `Except.ok jwt` stands for `(jwt, nil)`, `Except.error e` for `("", e)`. -/
def checkIn (macAddress : GoString) (r : HttpResult CheckInBody) : Except Err GoString :=
  if macAddress = [] then .error .macNotFound
  else
    match r with
    | .requestError => .error .request
    | .transportError => .error .transport
    | .response statusCode body =>
      if statusCode = 401 then .ok []
      else if statusCode ≠ 200 ∧ statusCode ≠ 201 then .error (.status statusCode)
      else
        match body with
        | .malformed => .error .decode
        | .object accessToken => .ok (accessToken.getD [])

/-- What `doCheckIn` prints. -/
inductive CheckInLog where
  /-- The line `check-in: <error>` on standard error. -/
  | checkInError (e : Err)
  /-- The line `save JWT: <error>`. -/
  | saveError
  /-- The line `check-in OK, token saved`. -/
  | tokenSaved
  /-- The line saying the device awaits its group assignment `(401)`. -/
  | awaitingGroup
  deriving DecidableEq, Repr

/-- Go `doCheckIn` of `main`: the contents of the token file afterwards and
the line printed; `saveOk` tells whether `saveJWT` succeeds. -/
def doCheckIn (macAddress : GoString) (r : HttpResult CheckInBody) (saveOk : Bool)
    (jwtFile : GoString) : GoString × CheckInLog :=
  match checkIn macAddress r with
  | .error e => (jwtFile, .checkInError e)
  | .ok jwt =>
    if jwt ≠ [] then
      if !saveOk then (jwtFile, .saveError) else (jwt, .tokenSaved)
    else (jwtFile, .awaitingGroup)

/-- Go `fetchMedia`. -/
def fetchMedia (r : HttpResult MediaBody) : Except Err (List MediaItem) :=
  match r with
  | .requestError => .error .request
  | .transportError => .error .transport
  | .response statusCode body =>
    if statusCode = 401 then .error .tokenInvalid
    else if statusCode ≠ 200 then .error (.status statusCode)
    else
      match body with
      | .malformed => .error .decode
      | .array items => .ok items

/-! ## The state of `main` and `syncAndPlay` -/

/-- An `exec.Cmd`; `Process` is the process id once the command is started. -/
structure Cmd where
  Process : Option Nat
  deriving DecidableEq, Repr

/-- The variables of `main` that its closures share, the media directory, and
a record of the effects on processes and contexts. -/
structure State where
  mplayerCmd : Option Cmd
  ffmpegCmd : Option Cmd
  /-- The cancel function held in `playCancel`, named by its context. -/
  playCancel : Option Nat
  initialSyncDone : Bool
  lastRunDate : GoString
  /-- The media directory. -/
  dir : Dir
  /-- Processes killed so far, latest first. -/
  killed : List Nat
  /-- Contexts cancelled so far, latest first. -/
  cancelled : List Nat
  /-- Contexts for which the playback goroutine was launched, latest first. -/
  launched : List Nat
  /-- The next fresh context. -/
  nextCtx : Nat
  /-- Number of calls of `syncAndPlay` so far. -/
  syncCalls : Nat
  deriving DecidableEq, Repr

/-- The state in which `main` enters its loop, with media directory `d`. -/
def initState (d : Dir) : State :=
  { mplayerCmd := none, ffmpegCmd := none, playCancel := none, initialSyncDone := false,
    lastRunDate := [], dir := d, killed := [], cancelled := [], launched := [],
    nextCtx := 0, syncCalls := 0 }

/-- Go `stopPlayback` (the display is not modelled). -/
def stopPlayback (s : State) : State :=
  let s := match s.playCancel with
    | some c => { s with cancelled := c :: s.cancelled, playCancel := none }
    | none => s
  let s := match s.mplayerCmd with
    | some ⟨some p⟩ => { s with killed := p :: s.killed, mplayerCmd := none }
    | _ => s
  match s.ffmpegCmd with
  | some ⟨some p⟩ => { s with killed := p :: s.killed, ffmpegCmd := none }
  | _ => s

/-- What one call of `syncAndPlay` meets. -/
structure SyncEnv where
  /-- The result of `loadJWT` (empty when the file is missing). -/
  jwt : GoString
  /-- The exchange behind `fetchMedia`. -/
  media : HttpResult MediaBody
  fs : FsOracle
  /-- The outcome of the download of item number `i`. -/
  dl : Nat → Download

/-- The `keepIDs` map that `syncAndPlay` builds, as its lookup. -/
def keepIDsOf (items : List MediaItem) : GoString → Bool :=
  items.foldl (fun m it => fun k => if k = fileID it.ID then true else m k) (fun _ => false)

/-- The reconciliation inside `syncAndPlay`: `cleanupByIDs`, then `downloadMedia`. -/
def reconcile (mapLower : GoString → GoString) (fs : FsOracle) (dl : Nat → Download)
    (d : Dir) (items : List MediaItem) : Dir × List GoString :=
  downloadMedia mapLower dl (cleanupByIDs fs d (keepIDsOf items)) items

/-- Go `syncAndPlay`, up to the launch of the playback goroutine. -/
def syncAndPlay (mapLower : GoString → GoString) (env : SyncEnv) (s : State) : State :=
  let s := { s with syncCalls := s.syncCalls + 1 }
  if env.jwt = [] then s
  else
    let s := stopPlayback s
    match fetchMedia env.media with
    | .error _ => s
    | .ok items =>
      if items.length = 0 then s
      else
        let r := reconcile mapLower env.fs env.dl s.dir items
        let s := { s with dir := r.1 }
        if r.2.length = 0 then s
        else
          { s with playCancel := some s.nextCtx, launched := s.nextCtx :: s.launched,
                   nextCtx := s.nextCtx + 1 }

/-! ## The loop of `main` -/

/-- A reading of the wall clock: the calendar date as a day number, the hour
and the minute. -/
structure Clock where
  date : Nat
  hour : Nat
  minute : Nat
  deriving DecidableEq, Repr

/-- What one iteration of the loop of `main` meets. -/
structure Tick where
  /-- The result of `loadJWT` at the top of the iteration. -/
  jwt : GoString
  /-- The result of the second `loadJWT`, made in the first iteration only. -/
  jwtRetry : GoString
  /-- The value of `time.Now()`. -/
  now : Clock
  /-- What `syncAndPlay` meets if the iteration calls it. -/
  sync : SyncEnv

/-- The branch an iteration takes. -/
inductive Branch where
  /-- The token is empty: `continue`. -/
  | noToken
  /-- The `!initialSyncDone` branch. -/
  | initialSync
  /-- The `is4AM && today != lastRunDate` branch. -/
  | sync4AM
  /-- Neither. -/
  | idle
  deriving DecidableEq, Repr

/-- The value of `jwt` after the two reads at the top of an iteration. -/
def seenToken (first : Bool) (t : Tick) : GoString :=
  if t.jwt = [] then (if first then t.jwtRetry else t.jwt) else t.jwt

/-- One iteration of the loop of `main`; `format d` is
`now.Format("2006-01-02")` on day `d`. -/
def mainIter (mapLower : GoString → GoString) (format : Nat → GoString) (first : Bool)
    (t : Tick) (s : State) : State × Branch :=
  let jwt := seenToken first t
  if jwt = [] then (s, .noToken)
  else
    let is4AM := t.now.hour == 4 && t.now.minute == 0
    let today := format t.now.date
    if !s.initialSyncDone then
      (syncAndPlay mapLower t.sync { s with initialSyncDone := true }, .initialSync)
    else if is4AM && today != s.lastRunDate then
      (syncAndPlay mapLower t.sync { s with lastRunDate := today }, .sync4AM)
    else (s, .idle)

/-- The record of one iteration. -/
structure Step where
  first : Bool
  tick : Tick
  /-- The state before the iteration. -/
  pre : State
  branch : Branch
  /-- The state after it. -/
  post : State

/-- The iterations of the loop of `main` over the given ticks, from state `s`. -/
def mainLoopFrom (mapLower : GoString → GoString) (format : Nat → GoString) :
    Bool → State → List Tick → List Step
  | _, _, [] => []
  | first, s, t :: rest =>
    let r := mainIter mapLower format first t s
    ⟨first, t, s, r.2, r.1⟩ :: mainLoopFrom mapLower format false r.1 rest

/-- The loop of `main` over the given ticks, the first one without waiting. -/
def mainLoop (mapLower : GoString → GoString) (format : Nat → GoString) (d : Dir)
    (ticks : List Tick) : List Step :=
  mainLoopFrom mapLower format true (initState d) ticks

/-! ## The playback goroutine -/

/-- What one call of `runConcatPlayback` meets. -/
structure SpawnEnv where
  /-- Whether `os.ReadDir` succeeds in `listVideoFiles`. -/
  readDirOk : Bool
  /-- Whether `os.WriteFile` of the concat list succeeds on a path that is not
  a directory. -/
  writeFileOk : Bool
  /-- Whether `ffmpeg.StdoutPipe` succeeds. -/
  stdoutPipeOk : Bool
  /-- The global `videoPlayerCmd`. -/
  videoPlayerCmd : GoString
  /-- The process that `Start` creates for the named command; `none` when
  `Start` returns an error. -/
  start : GoString → Option Nat

/-- Go `runConcatPlayback`: the state afterwards (the concat list written, the
muxer killed when the player does not start) and the pair `(ffmpeg, mplayer)`
it returns. The contents of the concat list and the arguments of the commands
are not modelled. -/
def runConcatPlayback (mapLower : GoString → GoString) (env : SpawnEnv) (s : State) :
    State × Option Cmd × Option Cmd :=
  let files := if env.readDirOk then listVideoFiles mapLower s.dir else []
  if files.length = 0 then (s, none, none)
  else if hasDir s.dir (lit ".concat.txt") || !env.writeFileOk then (s, none, none)
  else
    let s := { s with dir := osCreate (lit ".concat.txt") s.dir }
    if !env.stdoutPipeOk then (s, none, none)
    else
      match env.start (lit "ffmpeg") with
      | none => (s, none, none)
      | some q =>
        if env.videoPlayerCmd = lit "mpv" then
          match env.start (lit "mpv") with
          | none => ({ s with killed := q :: s.killed }, none, none)
          | some p => (s, some ⟨some q⟩, some ⟨some p⟩)
        else
          match env.start (lit "mplayer") with
          | none => ({ s with killed := q :: s.killed }, none, none)
          | some p => (s, some ⟨some q⟩, some ⟨some p⟩)

/-- The goroutine that `syncAndPlay` launches for the context `ctx`, up to
`mplayerCmd.Wait()`: it returns at once when the context is done, else it
stores the result of `runConcatPlayback` in the two handles under the mutex.
The deferred `cancel()` runs when the goroutine returns. The boolean tells
whether the goroutine goes on to wait for the player. -/
def playbackStart (mapLower : GoString → GoString) (env : SpawnEnv) (ctx : Nat) (s : State) :
    State × Bool :=
  if ctx ∈ s.cancelled then ({ s with cancelled := ctx :: s.cancelled }, false)
  else
    let r := runConcatPlayback mapLower env s
    let s2 : State := { r.1 with ffmpegCmd := r.2.1, mplayerCmd := r.2.2 }
    if s2.mplayerCmd = none then ({ s2 with cancelled := ctx :: s2.cancelled }, false)
    else (s2, true)

/-- The rest of the goroutine, once `mplayerCmd.Wait()` has returned: under the
mutex the muxer is killed and both handles are set to nil; then the deferred
`cancel()` runs. -/
def playbackExit (ctx : Nat) (s : State) : State :=
  let s := match s.ffmpegCmd with
    | some ⟨some q⟩ => { s with killed := q :: s.killed }
    | _ => s
  { s with ffmpegCmd := none, mplayerCmd := none, cancelled := ctx :: s.cancelled }

/-- The operations that write the pipeline handle, each atomic under the mutex. -/
inductive Op where
  /-- An iteration of the loop of `main`, which may call `syncAndPlay` and so
  `stopPlayback`. -/
  | iterate (first : Bool) (t : Tick)
  /-- The first part of a playback goroutine. -/
  | start (env : SpawnEnv) (ctx : Nat)
  /-- The second part of a playback goroutine. -/
  | exit (ctx : Nat)

/-- The state after one operation. -/
def applyOp (mapLower : GoString → GoString) (format : Nat → GoString) (s : State) :
    Op → State
  | .iterate first t => (mainIter mapLower format first t s).1
  | .start env ctx => (playbackStart mapLower env ctx s).1
  | .exit ctx => playbackExit ctx s

/-- The state after a sequence of operations, from the state in which `main`
enters its loop. -/
def runOps (mapLower : GoString → GoString) (format : Nat → GoString) (d : Dir)
    (ops : List Op) : State :=
  ops.foldl (applyOp mapLower format) (initState d)

/-! ## Notions used to state the properties -/

/-- Lower case of an ASCII byte: the letters `A` to `Z` go to `a` to `z`, every
other byte stays. -/
def lowerASCII (c : Nat) : Nat := if 0x41 ≤ c ∧ c ≤ 0x5A then c + 0x20 else c

/-- The byte `fileID` writes for the rune `r`. -/
def sanitizeRune (r : Nat) : Nat := if safeRune r then r else 0x5F

/-- An entry that `cleanupByIDs` is to leave in place: a directory, an entry
with an empty stem, or an entry whose stem is a key of `keepIDs`. -/
def kept (keepIDs : GoString → Bool) (e : DirEntry) : Bool :=
  e.isDir || stem e.name == [] || keepIDs (stem e.name)

/-- A file system on which reading the directory and every unlink succeed. -/
def okFs : FsOracle := ⟨true, fun _ => true⟩

/-- The name under which `downloadMedia` stores an item. -/
def targetName (mapLower : GoString → GoString) (it : MediaItem) : GoString :=
  fileID it.ID ++ extFromURL mapLower it.URL

/-- The item `it`, downloaded as number `j` with the directory `d`, has a url,
its response is `200` and its file `n` can be created: `downloadFile` writes
the file `n`, all of it or a part. -/
def writesAt (mapLower : GoString → GoString) (dl : Nat → Download) (d : Dir)
    (j : Nat) (it : MediaItem) (n : GoString) : Prop :=
  it.URL ≠ [] ∧ n = targetName mapLower it ∧
    (dl j).respStatus = some 200 ∧ (dl j).createOk = true ∧ hasDir d n = false

/-- Some item of the manifest makes `downloadMedia` write the file `n`. -/
def written (mapLower : GoString → GoString) (dl : Nat → Download) (d : Dir)
    (items : List MediaItem) (n : GoString) : Prop :=
  ∃ k it, items[k]? = some it ∧ writesAt mapLower dl d k it n

/-- The download of some item of the manifest into the file `n` succeeds. -/
def fetched (mapLower : GoString → GoString) (dl : Nat → Download) (d : Dir)
    (items : List MediaItem) (n : GoString) : Prop :=
  ∃ k it, items[k]? = some it ∧ writesAt mapLower dl d k it n ∧ (dl k).copyOk = true

/-- Downloads that all succeed. -/
def allOk : Nat → Download := fun _ => ⟨some 200, true, true⟩

/-- A call of `syncAndPlay` with a token, the manifest `items` fetched with
status `200`, and a file system and downloads that all succeed. -/
def okEnv (items : List MediaItem) : SyncEnv :=
  ⟨lit "T1", .response 200 (.array items), okFs, allOk⟩

/-- Stands for `mapLower` where every string is ASCII, so that `ToLower`
does not call it. -/
def asciiOnly : GoString → GoString := fun s => s

/-- A media directory that holds the one file `c.mkv`. -/
def staleDir : Dir := [⟨lit "c.mkv", false⟩]

/-- A manifest with the one item `c`, whose url names no extension. -/
def oneItem : List MediaItem := [⟨lit "c", lit "http://h/y", lit "C"⟩]

/-- A state of `main` with a running pipeline: muxer `1`, player `2`. -/
def playingState : State :=
  { initState [⟨lit "c.mp4", false⟩] with
    mplayerCmd := some ⟨some 2⟩, ffmpegCmd := some ⟨some 1⟩, playCancel := some 0,
    launched := [0], nextCtx := 1, initialSyncDone := true, syncCalls := 1 }

/-- A call of `syncAndPlay` with a token in which the request of `fetchMedia`
fails on the network. -/
def offlineEnv : SyncEnv := ⟨lit "T1", .transportError, okFs, allOk⟩

/-- Stands for `now.Format("2006-01-02")` in examples: the day number in decimal. -/
def dayStamp (d : Nat) : GoString := (Nat.toDigits 10 d).map Char.toNat

/-- The iteration called `syncAndPlay`. -/
def Branch.syncs : Branch → Bool
  | .initialSync => true
  | .sync4AM => true
  | _ => false

/-- A tick with the token `T1` present, at the given time, with the network down. -/
def offlineTick (date hour minute : Nat) : Tick :=
  ⟨lit "T1", [], ⟨date, hour, minute⟩, offlineEnv⟩

/-- A tick without a token, at the given time. -/
def emptyTick (date hour minute : Nat) : Tick :=
  ⟨[], [], ⟨date, hour, minute⟩, offlineEnv⟩

/-- The clock of the scenario: `03:59`, `04:00` and `04:01` on day one, then
`04:00` on day two, the token present throughout. -/
def fourAMTicks : List Tick :=
  [offlineTick 1 3 59, offlineTick 1 4 0, offlineTick 1 4 1, offlineTick 2 4 0]

/-- No token on the first iteration, then the token present from `04:00` on. -/
def lateTokenTicks : List Tick :=
  [emptyTick 1 3 59, offlineTick 1 4 0, offlineTick 1 4 1]

/-- An entry that `cleanupByIDs` leaves in the directory: one it is to leave in
place, or one whose unlink fails. -/
def stays (fs : FsOracle) (keepIDs : GoString → Bool) (e : DirEntry) : Bool :=
  kept keepIDs e || !fs.removeOk e.name

/-- The pipeline handle is paired: both commands are nil, or both are started. -/
def handlePaired (s : State) : Prop :=
  (s.ffmpegCmd = none ∧ s.mplayerCmd = none) ∨
    ∃ q p, s.ffmpegCmd = some ⟨some q⟩ ∧ s.mplayerCmd = some ⟨some p⟩

/-- The command that `runConcatPlayback` starts as the player. -/
def playerName (env : SpawnEnv) : GoString :=
  if env.videoPlayerCmd = lit "mpv" then lit "mpv" else lit "mplayer"

/-- The call of `runConcatPlayback` gets as far as starting the muxer: there
are video files, and the concat list and the pipe are made. -/
def reachesSpawn (mapLower : GoString → GoString) (env : SpawnEnv) (s : State) : Bool :=
  env.readDirOk && (listVideoFiles mapLower s.dir).length != 0 &&
    !hasDir s.dir (lit ".concat.txt") && env.writeFileOk && env.stdoutPipeOk

/-- A call of `runConcatPlayback` in which everything succeeds but the start of
the player `mplayer`; the muxer is process `7`. -/
def playerFailsEnv : SpawnEnv :=
  ⟨true, true, true, lit "mplayer", fun c => if c = lit "ffmpeg" then some 7 else none⟩

/-- A call of `runConcatPlayback` in which everything succeeds: the muxer is
process `7`, the player `mplayer` is process `8`. -/
def spawnOkEnv : SpawnEnv :=
  ⟨true, true, true, lit "mplayer", fun c => if c = lit "ffmpeg" then some 7 else some 8⟩

example : fileID (lit "a!b") = lit "a_b" := by decide
example : fileID [] = lit "media" := by decide
example : fileID [0xC3, 0xA9, 0x41, 0xFF] = lit "_A_" := by decide
example : ∀ f, extFromURL f (lit "http://h/x.mkv") = lit ".mkv" := fun _ => rfl
example : ∀ f, extFromURL f (lit "http://h/y") = lit ".mp4" := fun _ => rfl
example : stem (lit "a_b.mkv") = lit "a_b" := by decide
example : stem (lit ".mp4") = [] := by decide
example : stem (lit ".concat.txt") = lit ".concat" := by decide
example : (runConcatPlayback asciiOnly playerFailsEnv (initState staleDir)).2 = (none, none) := by
  decide
example : (runConcatPlayback asciiOnly playerFailsEnv (initState staleDir)).1.killed = [7] := by
  decide
example : (runConcatPlayback asciiOnly spawnOkEnv (initState staleDir)).2
    = (some ⟨some 7⟩, some ⟨some 8⟩) := by
  decide
example : (runConcatPlayback asciiOnly spawnOkEnv (initState [])).2 = (none, none) := by decide
example : (runOps asciiOnly dayStamp staleDir
    [.iterate true ⟨lit "T1", [], ⟨1, 12, 0⟩, okEnv oneItem⟩, .start spawnOkEnv 0]).ffmpegCmd
    = some ⟨some 7⟩ := by
  decide
example : (runOps asciiOnly dayStamp staleDir
    [.iterate true ⟨lit "T1", [], ⟨1, 12, 0⟩, okEnv oneItem⟩, .start spawnOkEnv 0,
      .exit 0]).killed = [7] := by
  decide
example : (syncAndPlay asciiOnly (okEnv [⟨lit "c", lit "http://h/y", lit "C"⟩])
    (initState [⟨lit "c.mkv", false⟩])).dir = [⟨lit "c.mkv", false⟩, ⟨lit "c.mp4", false⟩] := by
  decide

/-! ## Lemmas on `fileID` -/

theorem safeRune_lt {r : Nat} (h : safeRune r = true) : r < runeSelf := by
  simp only [safeRune, Bool.or_eq_true, Bool.and_eq_true, decide_eq_true_eq, beq_iff_eq] at h
  simp only [runeSelf]
  omega

theorem safeRune_sanitizeRune (r : Nat) : safeRune (sanitizeRune r) = true := by
  unfold sanitizeRune
  split
  · assumption
  · decide

theorem encodeRune_safe {r : Nat} (h : safeRune r = true) : encodeRune r = [r] := by
  have := safeRune_lt h
  simp only [runeSelf] at this
  simp [encodeRune, show r ≤ 0x7F by omega]

theorem fileIDStep_eq (b : GoString) (r : Nat) : fileIDStep b r = b ++ [sanitizeRune r] := by
  unfold fileIDStep sanitizeRune
  split
  · next h => rw [encodeRune_safe h]
  · rfl

theorem foldl_fileIDStep (rs : List Nat) (b : GoString) :
    rs.foldl fileIDStep b = b ++ rs.map sanitizeRune := by
  induction rs generalizing b with
  | nil => simp
  | cons r rs ih => simp [List.foldl_cons, ih, fileIDStep_eq]

theorem rangeFrom_ascii (s : GoString) (h : ∀ c ∈ s, c < runeSelf) : rangeFrom 0 s = s := by
  induction s with
  | nil => rfl
  | cons c s ih =>
    have hc : c < runeSelf := h c (List.mem_cons_self _ _)
    simp only [rangeFrom, hc, if_true]
    rw [ih (fun x hx => h x (List.mem_cons_of_mem _ hx))]

theorem runes_eq_nil (s : GoString) : runes s = [] ↔ s = [] := by
  cases s with
  | nil => simp [runes, rangeFrom]
  | cons c s =>
    simp only [runes, rangeFrom]
    split <;> simp

theorem fileID_eq (id : GoString) :
    fileID id = if id = [] then lit "media" else (runes id).map sanitizeRune := by
  unfold fileID
  simp only [foldl_fileIDStep, List.nil_append, List.map_eq_nil_iff, runes_eq_nil]

theorem fileID_safe (id : GoString) : ∀ c ∈ fileID id, safeRune c = true := by
  rw [fileID_eq]
  split
  · decide
  · intro c hc
    obtain ⟨r, _, rfl⟩ := List.mem_map.1 hc
    exact safeRune_sanitizeRune r

theorem fileID_ne_nil (id : GoString) : fileID id ≠ [] := by
  rw [fileID_eq]
  split
  · decide
  · simpa [runes_eq_nil] using ‹¬ id = []›

theorem sanitizeRune_of_safe {r : Nat} (h : safeRune r = true) : sanitizeRune r = r := by
  simp [sanitizeRune, h]

theorem map_sanitizeRune_of_safe (s : GoString) (h : ∀ c ∈ s, safeRune c = true) :
    s.map sanitizeRune = s := by
  induction s with
  | nil => rfl
  | cons c s ih =>
    rw [List.map_cons, sanitizeRune_of_safe (h c (List.mem_cons_self _ _)),
      ih (fun x hx => h x (List.mem_cons_of_mem _ hx))]

theorem fileID_of_safe (s : GoString) (hne : s ≠ []) (h : ∀ c ∈ s, safeRune c = true) :
    fileID s = s := by
  rw [fileID_eq, if_neg hne, runes, rangeFrom_ascii s (fun c hc => safeRune_lt (h c hc)),
    map_sanitizeRune_of_safe s h]

/-! ## Lemmas on the string functions -/

theorem HasPrefix_iff (s pre : GoString) : HasPrefix s pre = true ↔ pre <+: s := by
  unfold HasPrefix
  rw [Bool.and_eq_true, decide_eq_true_eq, beq_iff_eq, List.prefix_iff_eq_take]
  constructor
  · rintro ⟨_, h⟩
    exact h.symm
  · intro h
    refine ⟨?_, h.symm⟩
    have := congrArg List.length h
    rw [List.length_take] at this
    omega

theorem Contains_iff (s substr : GoString) : Contains s substr = true ↔ substr <:+: s := by
  induction s with
  | nil =>
    rw [Contains, HasPrefix_iff, List.prefix_nil, List.infix_nil]
  | cons c t ih =>
    rw [Contains, Bool.or_eq_true, HasPrefix_iff, ih, List.infix_cons_iff]

theorem extLoop_eq_find (u : GoString) (es : List GoString) :
    extLoop u es = (es.find? (fun e => decide (e <:+: u))).getD (lit ".mp4") := by
  induction es with
  | nil => rfl
  | cons e rest ih =>
    rw [extLoop, List.find?_cons]
    by_cases h : e <:+: u
    · rw [if_pos ((Contains_iff u e).2 h)]
      simp [h]
    · rw [if_neg (fun hc => h ((Contains_iff u e).1 hc)), ih]
      simp [h]

theorem extLoop_mem (u : GoString) (es : List GoString) :
    extLoop u es ∈ es ∨ extLoop u es = lit ".mp4" := by
  induction es with
  | nil => exact Or.inr rfl
  | cons e rest ih =>
    rw [extLoop]
    split
    · exact Or.inl (List.mem_cons_self _ _)
    · exact ih.imp (List.mem_cons_of_mem _) id

theorem extFromURL_mem (mapLower : GoString → GoString) (url : GoString) :
    extFromURL mapLower url ∈ videoExts := by
  rcases extLoop_mem (ToLower mapLower url) videoExts with h | h
  · exact h
  · unfold extFromURL
    rw [h]
    decide

theorem map_lowerASCII_of_no_upper (s : GoString) (h : s.any isUpperByte = false) :
    s.map lowerASCII = s := by
  induction s with
  | nil => rfl
  | cons c s ih =>
    rw [List.any_cons, Bool.or_eq_false_iff] at h
    have hc : ¬ (0x41 ≤ c ∧ c ≤ 0x5A) := by
      have := h.1
      simp only [isUpperByte, Bool.and_eq_false_iff, decide_eq_false_iff_not] at this
      omega
    rw [List.map_cons, ih h.2, lowerASCII, if_neg hc]

theorem ToLower_ascii (mapLower : GoString → GoString) (s : GoString)
    (h : ∀ c ∈ s, c < 0x80) : ToLower mapLower s = s.map lowerASCII := by
  have hall : s.all (fun c => decide (c < runeSelf)) = true := by
    rw [List.all_eq_true]
    intro c hc
    exact decide_eq_true (h c hc)
  unfold ToLower
  rw [if_pos hall]
  split
  · apply List.map_congr_left
    intro c _
    unfold lowerASCII isUpperByte
    by_cases hu : 0x41 ≤ c ∧ c ≤ 0x5A
    · simp [hu]
    · rw [if_neg hu, if_neg]
      simpa using hu
  · next hu =>
    exact (map_lowerASCII_of_no_upper s (by simpa using hu)).symm

theorem ToLower_not_ascii (mapLower : GoString → GoString) (s : GoString)
    (h : ¬ ∀ c ∈ s, c < 0x80) : ToLower mapLower s = mapLower s := by
  unfold ToLower
  rw [if_neg]
  intro hall
  rw [List.all_eq_true] at hall
  exact h (fun c hc => of_decide_eq_true (hall c hc))

/-! ## Lemmas on `cleanupByIDs` -/

theorem cleanupStep_eq (fs : FsOracle) (hrm : ∀ n, fs.removeOk n = true)
    (keepIDs : GoString → Bool) (acc : Dir) (e : DirEntry) :
    cleanupStep fs keepIDs acc e =
      acc.filter (fun x => kept keepIDs e || x.name != e.name) := by
  unfold cleanupStep kept stem osRemove
  cases hd : e.isDir
  · by_cases hs : TrimSuffix e.name (Ext e.name) = []
    · simp [hs]
    · have hs2 : List.isEmpty (TrimSuffix e.name (Ext e.name)) = false := by
        cases h : TrimSuffix e.name (Ext e.name) with
        | nil => exact absurd h hs
        | cons _ _ => rfl
      cases hk : keepIDs (TrimSuffix e.name (Ext e.name)) <;> simp [hs, hs2, hk, hrm]
  · simp

theorem foldl_cleanupStep (fs : FsOracle) (hrm : ∀ n, fs.removeOk n = true)
    (keepIDs : GoString → Bool) (es : List DirEntry) (acc : Dir) :
    es.foldl (cleanupStep fs keepIDs) acc =
      acc.filter (fun x => es.all fun e => kept keepIDs e || x.name != e.name) := by
  induction es generalizing acc with
  | nil => simp
  | cons e es ih =>
    rw [List.foldl_cons, ih, cleanupStep_eq fs hrm, List.filter_filter]
    apply List.filter_congr
    intro x _
    simp only [List.all_cons]
    rw [Bool.and_comm]

theorem cleanupByIDs_eq_filter (fs : FsOracle) (d : Dir) (keepIDs : GoString → Bool)
    (hnodup : (d.map DirEntry.name).Nodup) (hread : fs.readDirOk = true)
    (hrm : ∀ n, fs.removeOk n = true) :
    cleanupByIDs fs d keepIDs = d.filter (kept keepIDs) := by
  unfold cleanupByIDs
  rw [if_pos hread, foldl_cleanupStep fs hrm]
  apply List.filter_congr
  intro x hx
  cases hk : kept keepIDs x
  · rw [List.all_eq_false]
    exact ⟨x, hx, by simp [hk]⟩
  · rw [List.all_eq_true]
    intro e he
    by_cases hn : x.name = e.name
    · have : x = e := List.inj_on_of_nodup_map hnodup hx he hn
      subst this
      simp [hk]
    · simp [hn]

/-! ## Lemmas on `downloadMedia` -/

theorem hasFile_iff (d : Dir) (n : GoString) :
    hasFile d n = true ↔ ∃ e ∈ d, e.name = n ∧ e.isDir = false := by
  simp [hasFile]

theorem hasDir_iff (d : Dir) (n : GoString) :
    hasDir d n = true ↔ ∃ e ∈ d, e.name = n ∧ e.isDir = true := by
  simp [hasDir]

theorem hasDir_osCreate (n m : GoString) (d : Dir) : hasDir (osCreate n d) m = hasDir d m := by
  unfold osCreate
  split
  · rfl
  · simp [hasDir]

theorem hasFile_osCreate (n m : GoString) (d : Dir) (h : hasDir d n = false) :
    hasFile (osCreate n d) m = true ↔ hasFile d m = true ∨ m = n := by
  unfold osCreate
  split
  · next hany =>
    constructor
    · exact Or.inl
    · rintro (hm | rfl)
      · exact hm
      · obtain ⟨e, he, hn⟩ := List.any_eq_true.1 hany
        rw [hasFile_iff]
        refine ⟨e, he, by simpa using hn, ?_⟩
        cases hd : e.isDir
        · rfl
        · have : hasDir d m = true := (hasDir_iff d m).2 ⟨e, he, by simpa using hn, hd⟩
          rw [h] at this
          exact absurd this (by decide)
  · simp only [hasFile, List.any_append, List.any_cons, List.any_nil, Bool.or_false,
      Bool.or_eq_true, Bool.and_eq_true, beq_iff_eq, Bool.not_eq_true, Bool.not_false,
      and_true]
    constructor
    · rintro (hm | rfl)
      · exact Or.inl hm
      · exact Or.inr rfl
    · rintro (hm | rfl)
      · exact Or.inl hm
      · exact Or.inr rfl

theorem downloadFile_hasDir (o : Download) (n m : GoString) (d : Dir) :
    hasDir (downloadFile o n d).1 m = hasDir d m := by
  unfold downloadFile
  split
  · rfl
  · split
    · rfl
    · split
      · rfl
      · exact hasDir_osCreate n m d

theorem downloadFile_hasFile (o : Download) (n m : GoString) (d : Dir) :
    hasFile (downloadFile o n d).1 m = true ↔
      hasFile d m = true ∨
        (m = n ∧ o.respStatus = some 200 ∧ o.createOk = true ∧ hasDir d n = false) := by
  unfold downloadFile
  split
  · next h => simp [h]
  · next code h =>
    split
    · next hc => simp [h, hc]
    · next hc =>
      have hc2 : code = 200 := by simpa using hc
      split
      · next hb =>
        have : ¬ (o.createOk = true ∧ hasDir d n = false) := by
          rintro ⟨h1, h2⟩
          simp [h1, h2] at hb
        simp only [h, hc2, true_and]
        constructor
        · exact Or.inl
        · rintro (hm | ⟨_, h1, h2⟩)
          · exact hm
          · exact absurd ⟨h1, h2⟩ this
      · next hb =>
        have hb2 : hasDir d n = false ∧ o.createOk = true := by
          simpa using hb
        rw [hasFile_osCreate n m d hb2.1]
        simp [h, hc2, hb2.1, hb2.2]

theorem downloadFile_ok (o : Download) (n : GoString) (d : Dir) :
    (downloadFile o n d).2 = true ↔
      (o.respStatus = some 200 ∧ o.createOk = true ∧ o.copyOk = true ∧ hasDir d n = false) := by
  unfold downloadFile
  split
  · next h => simp [h]
  · next code h =>
    split
    · next hc => simp [h, hc]
    · next hc =>
      have hc2 : code = 200 := by simpa using hc
      split
      · next hb =>
        simp only [h, hc2, true_and]
        constructor
        · intro hf
          exact absurd hf (by decide)
        · rintro ⟨h1, _, h2⟩
          simp [h1, h2] at hb
      · next hb =>
        have hb2 : hasDir d n = false ∧ o.createOk = true := by
          simpa using hb
        simp [h, hc2, hb2.1, hb2.2]

theorem exists_getElem?_cons {α : Type} (a : α) (l : List α) (P : Nat → α → Prop) :
    (∃ k x, (a :: l)[k]? = some x ∧ P k x) ↔ P 0 a ∨ ∃ k x, l[k]? = some x ∧ P (k + 1) x := by
  constructor
  · rintro ⟨k, x, hx, hp⟩
    cases k with
    | zero =>
      simp only [List.getElem?_cons_zero, Option.some.injEq] at hx
      exact Or.inl (hx ▸ hp)
    | succ k =>
      rw [List.getElem?_cons_succ] at hx
      exact Or.inr ⟨k, x, hx, hp⟩
  · rintro (hp | ⟨k, x, hx, hp⟩)
    · exact ⟨0, a, by simp, hp⟩
    · exact ⟨k + 1, x, by simpa using hx, hp⟩

theorem writesAt_congr (mapLower : GoString → GoString) (dl : Nat → Download) (d1 d : Dir)
    (h : ∀ m, hasDir d1 m = hasDir d m) (j : Nat) (it : MediaItem) (n : GoString) :
    writesAt mapLower dl d1 j it n ↔ writesAt mapLower dl d j it n := by
  unfold writesAt
  rw [h]

theorem downloadLoop_spec (mapLower : GoString → GoString) (dl : Nat → Download)
    (items : List MediaItem) : ∀ (i : Nat) (d : Dir) (acc : List GoString),
    (∀ m, hasDir (downloadLoop mapLower dl i items d acc).1 m = hasDir d m) ∧
    (∀ m, hasFile (downloadLoop mapLower dl i items d acc).1 m = true ↔
      hasFile d m = true ∨
        ∃ k it, items[k]? = some it ∧ writesAt mapLower dl d (i + k) it m) ∧
    (∀ m, m ∈ (downloadLoop mapLower dl i items d acc).2 ↔
      m ∈ acc ∨
        ∃ k it, items[k]? = some it ∧
          (writesAt mapLower dl d (i + k) it m ∧ (dl (i + k)).copyOk = true)) := by
  induction items with
  | nil =>
    intro i d acc
    simp [downloadLoop]
  | cons it rest ih =>
    intro i d acc
    have hshift : ∀ k, i + 1 + k = i + (k + 1) := fun k => by omega
    rw [downloadLoop]
    split
    · next hurl =>
      obtain ⟨h1, h2, h3⟩ := ih (i + 1) d acc
      refine ⟨h1, fun m => ?_, fun m => ?_⟩
      · rw [h2 m, exists_getElem?_cons it rest (fun k x => writesAt mapLower dl d (i + k) x m)]
        simp only [hshift]
        have : ¬ writesAt mapLower dl d i it m := fun h => h.1 hurl
        simp [this]
      · rw [h3 m, exists_getElem?_cons it rest
          (fun k x => writesAt mapLower dl d (i + k) x m ∧ (dl (i + k)).copyOk = true)]
        simp only [hshift]
        have : ¬ writesAt mapLower dl d i it m := fun h => h.1 hurl
        simp [this]
    · next hurl =>
      have hdir := downloadFile_hasDir (dl i) (fileID it.ID ++ extFromURL mapLower it.URL)
      have hfile := downloadFile_hasFile (dl i) (fileID it.ID ++ extFromURL mapLower it.URL)
      have hok := downloadFile_ok (dl i) (fileID it.ID ++ extFromURL mapLower it.URL) d
      have hw : ∀ m, writesAt mapLower dl d (i + 0) it m ↔
          (m = fileID it.ID ++ extFromURL mapLower it.URL ∧ (dl i).respStatus = some 200 ∧
            (dl i).createOk = true ∧ hasDir d (fileID it.ID ++ extFromURL mapLower it.URL)
              = false) := by
        intro m
        unfold writesAt targetName
        simp only [Nat.add_zero]
        constructor
        · rintro ⟨_, rfl, h1, h2, h3⟩
          exact ⟨rfl, h1, h2, h3⟩
        · rintro ⟨rfl, h1, h2, h3⟩
          exact ⟨hurl, rfl, h1, h2, h3⟩
      simp only []
      split
      · next hfail =>
        obtain ⟨h1, h2, h3⟩ := ih (i + 1)
          (downloadFile (dl i) (fileID it.ID ++ extFromURL mapLower it.URL) d).1 acc
        refine ⟨fun m => by rw [h1 m, hdir m d], fun m => ?_, fun m => ?_⟩
        · rw [h2 m, hfile m d,
            exists_getElem?_cons it rest (fun k x => writesAt mapLower dl d (i + k) x m), hw m]
          simp only [hshift, writesAt_congr mapLower dl _ d (fun m => hdir m d), or_assoc]
        · rw [h3 m, exists_getElem?_cons it rest
            (fun k x => writesAt mapLower dl d (i + k) x m ∧ (dl (i + k)).copyOk = true), hw m]
          simp only [hshift, writesAt_congr mapLower dl _ d (fun m => hdir m d)]
          have : ¬ ((m = fileID it.ID ++ extFromURL mapLower it.URL ∧
              (dl i).respStatus = some 200 ∧ (dl i).createOk = true ∧
              hasDir d (fileID it.ID ++ extFromURL mapLower it.URL) = false) ∧
              (dl i).copyOk = true) := by
            rintro ⟨⟨_, h1, h2, h3⟩, h4⟩
            have := hok.2 ⟨h1, h2, h4, h3⟩
            simp [this] at hfail
          simp [this]
      · next hsucc =>
        obtain ⟨h1, h2, h3⟩ := ih (i + 1)
          (downloadFile (dl i) (fileID it.ID ++ extFromURL mapLower it.URL) d).1
          (acc ++ [fileID it.ID ++ extFromURL mapLower it.URL])
        have hs : (downloadFile (dl i) (fileID it.ID ++ extFromURL mapLower it.URL) d).2
            = true := by simpa using hsucc
        obtain ⟨o1, o2, o3, o4⟩ := hok.1 hs
        refine ⟨fun m => by rw [h1 m, hdir m d], fun m => ?_, fun m => ?_⟩
        · rw [h2 m, hfile m d,
            exists_getElem?_cons it rest (fun k x => writesAt mapLower dl d (i + k) x m), hw m]
          simp only [hshift, writesAt_congr mapLower dl _ d (fun m => hdir m d), or_assoc]
        · rw [h3 m, exists_getElem?_cons it rest
            (fun k x => writesAt mapLower dl d (i + k) x m ∧ (dl (i + k)).copyOk = true), hw m]
          simp only [hshift, writesAt_congr mapLower dl _ d (fun m => hdir m d),
            List.mem_append, List.mem_singleton, or_assoc]
          simp [o1, o2, o3, o4]

/-! ## Lemmas on stems and on `syncAndPlay` -/

theorem extScan_skip (ys before after : GoString) (h : ∀ c ∈ ys, c ≠ 0x2E ∧ c ≠ 0x2F) :
    extScan (ys ++ 0x2E :: before) after = 0x2E :: (ys.reverse ++ after) := by
  induction ys generalizing after with
  | nil => simp [extScan]
  | cons y ys ih =>
    have hy := h y (List.mem_cons_self _ _)
    rw [List.cons_append, extScan, if_neg hy.2, if_neg hy.1,
      ih (y :: after) (fun c hc => h c (List.mem_cons_of_mem _ hc))]
    simp

theorem Ext_append_dot (a rest : GoString) (h : ∀ c ∈ rest, c ≠ 0x2E ∧ c ≠ 0x2F) :
    Ext (a ++ 0x2E :: rest) = 0x2E :: rest := by
  unfold Ext
  rw [List.reverse_append, List.reverse_cons, List.append_assoc, List.singleton_append,
    extScan_skip rest.reverse a.reverse [] (fun c hc => h c (List.mem_reverse.1 hc))]
  simp

theorem TrimSuffix_append (a e : GoString) : TrimSuffix (a ++ e) e = a := by
  have hlen : (a ++ e).length - e.length = a.length := by
    rw [List.length_append]
    omega
  unfold TrimSuffix HasSuffix
  rw [hlen, List.drop_left, List.take_left]
  simp

theorem stem_append_dot (a rest : GoString) (h : ∀ c ∈ rest, c ≠ 0x2E ∧ c ≠ 0x2F) :
    stem (a ++ 0x2E :: rest) = a := by
  unfold stem
  rw [Ext_append_dot a rest h, TrimSuffix_append]

theorem stem_append_videoExt (a e : GoString) (he : e ∈ videoExts) : stem (a ++ e) = a := by
  have hcases : e = lit ".mkv" ∨ e = lit ".mp4" ∨ e = lit ".avi" ∨ e = lit ".webm" := by
    simpa [videoExts] using he
  rcases hcases with rfl | rfl | rfl | rfl
  · exact stem_append_dot a (lit "mkv") (by decide)
  · exact stem_append_dot a (lit "mp4") (by decide)
  · exact stem_append_dot a (lit "avi") (by decide)
  · exact stem_append_dot a (lit "webm") (by decide)

theorem stem_targetName (mapLower : GoString → GoString) (it : MediaItem) :
    stem (targetName mapLower it) = fileID it.ID :=
  stem_append_videoExt _ _ (extFromURL_mem mapLower it.URL)

theorem foldl_keep_iff (items : List MediaItem) (m0 : GoString → Bool) (k : GoString) :
    items.foldl (fun m it => fun k => if k = fileID it.ID then true else m k) m0 k = true ↔
      m0 k = true ∨ ∃ it ∈ items, k = fileID it.ID := by
  induction items generalizing m0 with
  | nil => simp
  | cons it rest ih =>
    rw [List.foldl_cons, ih]
    by_cases hk : k = fileID it.ID
    · simp [hk]
    · simp [hk]

theorem keepIDsOf_iff (items : List MediaItem) (k : GoString) :
    keepIDsOf items k = true ↔ ∃ it ∈ items, k = fileID it.ID := by
  unfold keepIDsOf
  rw [foldl_keep_iff]
  simp

theorem hasDir_filter_kept (keepIDs : GoString → Bool) (d : Dir) (n : GoString) :
    hasDir (d.filter (kept keepIDs)) n = hasDir d n := by
  rw [Bool.eq_iff_iff, hasDir_iff, hasDir_iff]
  constructor
  · rintro ⟨e, he, hn, hd⟩
    exact ⟨e, (List.mem_filter.1 he).1, hn, hd⟩
  · rintro ⟨e, he, hn, hd⟩
    exact ⟨e, List.mem_filter.2 ⟨he, by simp [kept, hd]⟩, hn, hd⟩

theorem hasFile_filter_kept (keepIDs : GoString → Bool) (d : Dir) (n : GoString) :
    hasFile (d.filter (kept keepIDs)) n = true ↔
      hasFile d n = true ∧ (stem n = [] ∨ keepIDs (stem n) = true) := by
  rw [hasFile_iff, hasFile_iff]
  constructor
  · rintro ⟨e, he, rfl, hd⟩
    obtain ⟨hmem, hk⟩ := List.mem_filter.1 he
    refine ⟨⟨e, hmem, rfl, hd⟩, ?_⟩
    simpa [kept, hd] using hk
  · rintro ⟨⟨e, he, rfl, hd⟩, hk⟩
    refine ⟨e, List.mem_filter.2 ⟨he, ?_⟩, rfl, hd⟩
    simpa [kept, hd] using hk

theorem stopPlayback_frame (s : State) :
    (stopPlayback s).dir = s.dir ∧ (stopPlayback s).initialSyncDone = s.initialSyncDone ∧
    (stopPlayback s).lastRunDate = s.lastRunDate ∧ (stopPlayback s).syncCalls = s.syncCalls ∧
    (stopPlayback s).launched = s.launched ∧ (stopPlayback s).nextCtx = s.nextCtx := by
  rcases s with ⟨_ | ⟨_ | _⟩, _ | ⟨_ | _⟩, _ | _, _, _, _, _, _, _, _, _⟩ <;>
    exact ⟨rfl, rfl, rfl, rfl, rfl, rfl⟩

theorem syncAndPlay_dir (mapLower : GoString → GoString) (env : SyncEnv) (s : State)
    (items : List MediaItem) (hjwt : env.jwt ≠ []) (hfetch : fetchMedia env.media = .ok items) :
    (syncAndPlay mapLower env s).dir =
      if items = [] then s.dir else (reconcile mapLower env.fs env.dl s.dir items).1 := by
  have hd : (stopPlayback { s with syncCalls := s.syncCalls + 1 }).dir = s.dir :=
    (stopPlayback_frame _).1
  unfold syncAndPlay
  simp only [if_neg hjwt, hfetch]
  by_cases hi : items = []
  · simp [hi, hd]
  · have hl : ¬ items.length = 0 := fun h => hi (List.length_eq_zero.1 h)
    simp only [if_neg hi, if_neg hl, hd]
    split <;> rfl

theorem reconcile_spec (mapLower : GoString → GoString) (fs : FsOracle) (dl : Nat → Download)
    (d : Dir) (items : List MediaItem) (hnodup : (d.map DirEntry.name).Nodup)
    (hread : fs.readDirOk = true) (hrm : ∀ n, fs.removeOk n = true) :
    (∀ n, hasFile (reconcile mapLower fs dl d items).1 n = true ↔
      (hasFile d n = true ∧ (stem n = [] ∨ ∃ it ∈ items, stem n = fileID it.ID)) ∨
        written mapLower dl d items n) ∧
    (∀ n, n ∈ (reconcile mapLower fs dl d items).2 ↔ fetched mapLower dl d items n) := by
  unfold reconcile downloadMedia written fetched
  rw [cleanupByIDs_eq_filter fs d _ hnodup hread hrm]
  obtain ⟨_, h2, h3⟩ := downloadLoop_spec mapLower dl items 0
    (d.filter (kept (keepIDsOf items))) []
  have hcongr := writesAt_congr mapLower dl (d.filter (kept (keepIDsOf items))) d
    (hasDir_filter_kept (keepIDsOf items) d)
  refine ⟨fun n => ?_, fun n => ?_⟩
  · rw [h2 n, hasFile_filter_kept, keepIDsOf_iff]
    simp only [hcongr, Nat.zero_add]
  · rw [h3 n]
    simp only [hcongr, Nat.zero_add, List.not_mem_nil, false_or]

/-! ## Lemmas on the loop of `main` -/

theorem syncAndPlay_frame (mapLower : GoString → GoString) (env : SyncEnv) (s : State) :
    (syncAndPlay mapLower env s).initialSyncDone = s.initialSyncDone ∧
    (syncAndPlay mapLower env s).lastRunDate = s.lastRunDate ∧
    (syncAndPlay mapLower env s).syncCalls = s.syncCalls + 1 := by
  obtain ⟨_, h2, h3, h4, _, _⟩ := stopPlayback_frame { s with syncCalls := s.syncCalls + 1 }
  unfold syncAndPlay
  simp only []
  split
  · exact ⟨rfl, rfl, rfl⟩
  · split
    · exact ⟨h2, h3, h4⟩
    · split
      · exact ⟨h2, h3, h4⟩
      · split <;> exact ⟨h2, h3, h4⟩

theorem mainIter_noToken (mapLower : GoString → GoString) (format : Nat → GoString)
    (first : Bool) (t : Tick) (s : State) (h : seenToken first t = []) :
    mainIter mapLower format first t s = (s, .noToken) := by
  unfold mainIter
  simp only [h, if_true]

theorem mainIter_initial (mapLower : GoString → GoString) (format : Nat → GoString)
    (first : Bool) (t : Tick) (s : State) (h : seenToken first t ≠ [])
    (hs : s.initialSyncDone = false) :
    mainIter mapLower format first t s =
      (syncAndPlay mapLower t.sync { s with initialSyncDone := true }, .initialSync) := by
  unfold mainIter
  simp only [if_neg h, hs, Bool.not_false, if_true]

theorem mainIter_armed (mapLower : GoString → GoString) (format : Nat → GoString)
    (first : Bool) (t : Tick) (s : State) (h : seenToken first t ≠ [])
    (hs : s.initialSyncDone = true) :
    mainIter mapLower format first t s =
      if t.now.hour = 4 ∧ t.now.minute = 0 ∧ format t.now.date ≠ s.lastRunDate then
        (syncAndPlay mapLower t.sync { s with lastRunDate := format t.now.date }, .sync4AM)
      else (s, .idle) := by
  unfold mainIter
  simp only [if_neg h, hs, Bool.not_true, Bool.false_eq_true, if_false]
  by_cases h4 : t.now.hour = 4 <;> by_cases hm : t.now.minute = 0 <;>
    by_cases hd : format t.now.date = s.lastRunDate <;> simp [h4, hm, hd]

/-- The facts on one iteration that the properties of the loop rest on. -/
theorem mainIter_facts (mapLower : GoString → GoString) (format : Nat → GoString)
    (first : Bool) (t : Tick) (s : State) :
    ((mainIter mapLower format first t s).2 = .noToken ↔ seenToken first t = []) ∧
    ((mainIter mapLower format first t s).2 = .initialSync ↔
      seenToken first t ≠ [] ∧ s.initialSyncDone = false) ∧
    ((mainIter mapLower format first t s).2 = .sync4AM ↔
      seenToken first t ≠ [] ∧ s.initialSyncDone = true ∧ t.now.hour = 4 ∧ t.now.minute = 0 ∧
        format t.now.date ≠ s.lastRunDate) ∧
    ((mainIter mapLower format first t s).1.lastRunDate =
      if (mainIter mapLower format first t s).2 = .sync4AM then format t.now.date
      else s.lastRunDate) ∧
    ((mainIter mapLower format first t s).1.initialSyncDone =
      (s.initialSyncDone || decide ((mainIter mapLower format first t s).2 = .initialSync))) ∧
    ((mainIter mapLower format first t s).1.syncCalls =
      if (mainIter mapLower format first t s).2.syncs then s.syncCalls + 1 else s.syncCalls) ∧
    ((mainIter mapLower format first t s).2.syncs = false →
      (mainIter mapLower format first t s).1 = s) := by
  by_cases h : seenToken first t = []
  · rw [mainIter_noToken mapLower format first t s h]
    simp [h, Branch.syncs]
  · obtain ⟨m, f, c, isd, lrd, d, kl, cn, la, nx, sc⟩ := s
    cases isd
    · rw [mainIter_initial mapLower format first t _ h rfl]
      obtain ⟨f1, f2, f3⟩ := syncAndPlay_frame mapLower t.sync
        ⟨m, f, c, true, lrd, d, kl, cn, la, nx, sc⟩
      simp [h, Branch.syncs, f1, f2, f3]
    · rw [mainIter_armed mapLower format first t _ h rfl]
      obtain ⟨f1, f2, f3⟩ := syncAndPlay_frame mapLower t.sync
        ⟨m, f, c, true, format t.now.date, d, kl, cn, la, nx, sc⟩
      split
      · next hc => simp [h, Branch.syncs, f1, f2, f3, hc]
      · next hc => simp [h, Branch.syncs, hc]

theorem mainLoopFrom_mem (mapLower : GoString → GoString) (format : Nat → GoString)
    (ticks : List Tick) : ∀ (first : Bool) (s : State),
    ∀ st ∈ mainLoopFrom mapLower format first s ticks,
      st.tick ∈ ticks ∧ st.branch = (mainIter mapLower format st.first st.tick st.pre).2 ∧
        st.post = (mainIter mapLower format st.first st.tick st.pre).1 := by
  induction ticks with
  | nil =>
    intro first s st hst
    simp [mainLoopFrom] at hst
  | cons t rest ih =>
    intro first s st hst
    rw [mainLoopFrom, List.mem_cons] at hst
    rcases hst with rfl | hst
    · exact ⟨List.mem_cons_self _ _, rfl, rfl⟩
    · obtain ⟨h1, h2⟩ := ih _ _ st hst
      exact ⟨List.mem_cons_of_mem _ h1, h2⟩

theorem no_second_sync4AM (mapLower : GoString → GoString) (format : Nat → GoString) (d : Nat)
    (ticks : List Tick) : ∀ (first : Bool) (s : State), s.lastRunDate = format d →
    (∀ t ∈ ticks, d ≤ t.now.date) →
    ticks.Pairwise (fun a b => a.now.date ≤ b.now.date) →
    ∀ st ∈ mainLoopFrom mapLower format first s ticks,
      ¬ (st.branch = .sync4AM ∧ st.tick.now.date = d) := by
  induction ticks with
  | nil =>
    intro first s _ _ _ st hst
    simp [mainLoopFrom] at hst
  | cons t rest ih =>
    intro first s hlast hge hmono st hst
    obtain ⟨_, _, f3, f4, _⟩ := mainIter_facts mapLower format first t s
    rw [mainLoopFrom, List.mem_cons] at hst
    rcases hst with rfl | hst
    · rintro ⟨hb, hd⟩
      simp only at hb hd
      have := (f3.1 hb).2.2.2.2
      rw [hd, hlast] at this
      exact this rfl
    · by_cases hd : t.now.date = d
      · have hb : (mainIter mapLower format first t s).2 ≠ .sync4AM := by
          intro hb
          have := (f3.1 hb).2.2.2.2
          rw [hd, hlast] at this
          exact this rfl
        rw [if_neg hb, hlast] at f4
        exact ih false _ f4 (fun x hx => hge x (List.mem_cons_of_mem _ hx))
          (List.Pairwise.of_cons hmono) st hst
      · rintro ⟨_, hdate⟩
        have hmem := (mainLoopFrom_mem mapLower format rest _ _ st hst).1
        have h1 : t.now.date ≤ st.tick.now.date := List.rel_of_pairwise_cons hmono hmem
        have h2 : d ≤ t.now.date := hge t (List.mem_cons_self _ _)
        omega

theorem sync4AM_count (mapLower : GoString → GoString) (format : Nat → GoString) (d : Nat)
    (ticks : List Tick) : ∀ (first : Bool) (s : State),
    ticks.Pairwise (fun a b => a.now.date ≤ b.now.date) →
    ((mainLoopFrom mapLower format first s ticks).filter
      (fun st => decide (st.branch = .sync4AM) && decide (st.tick.now.date = d))).length ≤ 1 := by
  induction ticks with
  | nil =>
    intro first s _
    simp [mainLoopFrom]
  | cons t rest ih =>
    intro first s hmono
    obtain ⟨_, _, _, f4, _⟩ := mainIter_facts mapLower format first t s
    rw [mainLoopFrom, List.filter_cons]
    split
    · next hp =>
      simp only [Bool.and_eq_true, decide_eq_true_eq] at hp
      rw [if_pos hp.1, hp.2] at f4
      have hnone := no_second_sync4AM mapLower format d rest false _ f4
        (fun x hx => hp.2 ▸ List.rel_of_pairwise_cons hmono hx) (List.Pairwise.of_cons hmono)
      have : (mainLoopFrom mapLower format false (mainIter mapLower format first t s).1 rest).filter
          (fun st => decide (st.branch = .sync4AM) && decide (st.tick.now.date = d)) = [] := by
        rw [List.filter_eq_nil_iff]
        intro st hst
        simpa using hnone st hst
      rw [List.length_cons, this]
      rfl
    · exact ih false _ (List.Pairwise.of_cons hmono)

theorem armed_no_initialSync (mapLower : GoString → GoString) (format : Nat → GoString)
    (ticks : List Tick) : ∀ (first : Bool) (s : State), s.initialSyncDone = true →
    ∀ st ∈ mainLoopFrom mapLower format first s ticks, st.branch ≠ .initialSync := by
  induction ticks with
  | nil =>
    intro first s _ st hst
    simp [mainLoopFrom] at hst
  | cons t rest ih =>
    intro first s hs st hst
    obtain ⟨_, f2, _, _, f5, _⟩ := mainIter_facts mapLower format first t s
    rw [mainLoopFrom, List.mem_cons] at hst
    rcases hst with rfl | hst
    · intro hb
      have := (f2.1 hb).2
      rw [hs] at this
      exact absurd this (by decide)
    · refine ih false _ ?_ st hst
      rw [f5, hs]
      rfl

theorem first_token_initialSync (mapLower : GoString → GoString) (format : Nat → GoString)
    (ticks : List Tick) : ∀ (first : Bool) (s : State) (k : Nat) (st : Step),
    s.initialSyncDone = false →
    (mainLoopFrom mapLower format first s ticks)[k]? = some st →
    (∀ i, i < k → ∀ si, (mainLoopFrom mapLower format first s ticks)[i]? = some si →
      seenToken si.first si.tick = []) →
    seenToken st.first st.tick ≠ [] →
    st.branch = .initialSync ∧ st.post.syncCalls = st.pre.syncCalls + 1 ∧
      ∀ i si, (mainLoopFrom mapLower format first s ticks)[i]? = some si → i ≠ k →
        si.branch ≠ .initialSync := by
  induction ticks with
  | nil =>
    intro first s k st _ hk
    simp [mainLoopFrom] at hk
  | cons t rest ih =>
    intro first s k st hs hk hbefore hseen
    obtain ⟨_, f2, _, _, f5, f6, _⟩ := mainIter_facts mapLower format first t s
    rw [mainLoopFrom] at hk hbefore ⊢
    cases k with
    | zero =>
      simp only [List.getElem?_cons_zero, Option.some.injEq] at hk
      subst hk
      simp only at hseen
      have hb : (mainIter mapLower format first t s).2 = .initialSync := f2.2 ⟨hseen, hs⟩
      refine ⟨hb, ?_, ?_⟩
      · simp only
        rw [f6, hb]
        rfl
      · intro i si hsi hi
        cases i with
        | zero => exact absurd rfl hi
        | succ i =>
          rw [List.getElem?_cons_succ] at hsi
          refine armed_no_initialSync mapLower format rest false _ ?_ si (List.getElem?_mem hsi)
          rw [f5, hb]
          simp
    | succ k =>
      have h0 : seenToken first t = [] := hbefore 0 (Nat.succ_pos k) _ (List.getElem?_cons_zero)
      have hiter := mainIter_noToken mapLower format first t s h0
      rw [hiter] at hk hbefore ⊢
      rw [List.getElem?_cons_succ] at hk
      obtain ⟨h1, h2, h3⟩ := ih false s k st hs hk
        (fun i hi si hsi => hbefore (i + 1) (Nat.succ_lt_succ hi) si
          (by rw [List.getElem?_cons_succ]; exact hsi)) hseen
      refine ⟨h1, h2, ?_⟩
      intro i si hsi hi
      cases i with
      | zero =>
        simp only [List.getElem?_cons_zero, Option.some.injEq] at hsi
        subst hsi
        simp
      | succ i =>
        rw [List.getElem?_cons_succ] at hsi
        exact h3 i si hsi (fun h => hi (by rw [h]))

/-! ## Lemmas on running the reconciliation twice -/

theorem cleanupStep_eq_stays (fs : FsOracle) (keepIDs : GoString → Bool) (acc : Dir)
    (e : DirEntry) :
    cleanupStep fs keepIDs acc e =
      acc.filter (fun x => stays fs keepIDs e || x.name != e.name) := by
  unfold cleanupStep stays kept stem osRemove
  cases hd : e.isDir
  · by_cases hs : TrimSuffix e.name (Ext e.name) = []
    · simp [hs]
    · have hs2 : List.isEmpty (TrimSuffix e.name (Ext e.name)) = false := by
        cases h : TrimSuffix e.name (Ext e.name) with
        | nil => exact absurd h hs
        | cons _ _ => rfl
      cases hk : keepIDs (TrimSuffix e.name (Ext e.name)) <;>
        cases hr : fs.removeOk e.name <;> simp [hs, hs2, hk, hr]
  · simp

theorem foldl_cleanupStep_stays (fs : FsOracle) (keepIDs : GoString → Bool)
    (es : List DirEntry) (acc : Dir) :
    es.foldl (cleanupStep fs keepIDs) acc =
      acc.filter (fun x => es.all fun e => stays fs keepIDs e || x.name != e.name) := by
  induction es generalizing acc with
  | nil => simp
  | cons e es ih =>
    rw [List.foldl_cons, ih, cleanupStep_eq_stays, List.filter_filter]
    apply List.filter_congr
    intro x _
    simp only [List.all_cons]
    rw [Bool.and_comm]

theorem cleanupByIDs_mem_stays (fs : FsOracle) (d : Dir) (keepIDs : GoString → Bool)
    (hread : fs.readDirOk = true) :
    ∀ e ∈ cleanupByIDs fs d keepIDs, e ∈ d ∧ stays fs keepIDs e = true := by
  intro e he
  unfold cleanupByIDs at he
  rw [if_pos hread, foldl_cleanupStep_stays, List.mem_filter, List.all_eq_true] at he
  refine ⟨he.1, ?_⟩
  have := he.2 e he.1
  simpa using this

theorem cleanupByIDs_of_stays (fs : FsOracle) (d : Dir) (keepIDs : GoString → Bool)
    (h : ∀ e ∈ d, stays fs keepIDs e = true) : cleanupByIDs fs d keepIDs = d := by
  unfold cleanupByIDs
  split
  · rw [foldl_cleanupStep_stays, List.filter_eq_self]
    intro x _
    rw [List.all_eq_true]
    intro e he
    rw [h e he]
    rfl
  · rfl

theorem downloadFile_entries (o : Download) (n : GoString) (d : Dir) :
    ∀ e ∈ (downloadFile o n d).1, e ∈ d ∨ e = ⟨n, false⟩ := by
  intro e he
  unfold downloadFile at he
  split at he
  · exact Or.inl he
  · split at he
    · exact Or.inl he
    · split at he
      · exact Or.inl he
      · unfold osCreate at he
        split at he
        · exact Or.inl he
        · simpa using he

theorem downloadFile_fixed (o : Download) (n : GoString) (d : Dir)
    (h : o.respStatus = some 200 → o.createOk = true → hasDir d n = false →
      d.any (fun e => e.name == n) = true) :
    (downloadFile o n d).1 = d := by
  unfold downloadFile
  split
  · rfl
  · next code hcode =>
    split
    · rfl
    · next hc =>
      split
      · rfl
      · next hb =>
        have hc2 : code = 200 := by simpa using hc
        have hb2 : hasDir d n = false ∧ o.createOk = true := by simpa using hb
        have := h (hc2 ▸ hcode) hb2.2 hb2.1
        simp only [osCreate, this, if_true]

theorem downloadLoop_entries (mapLower : GoString → GoString) (dl : Nat → Download)
    (items : List MediaItem) : ∀ (i : Nat) (d : Dir) (acc : List GoString),
    ∀ e ∈ (downloadLoop mapLower dl i items d acc).1,
      e ∈ d ∨ ∃ it ∈ items, e = ⟨targetName mapLower it, false⟩ := by
  induction items with
  | nil =>
    intro i d acc e he
    exact Or.inl he
  | cons it rest ih =>
    intro i d acc e he
    rw [downloadLoop] at he
    have lift : (e ∈ d ∨ ∃ x ∈ rest, e = ⟨targetName mapLower x, false⟩) →
        e ∈ d ∨ ∃ x ∈ it :: rest, e = ⟨targetName mapLower x, false⟩ := by
      rintro (h | ⟨x, hx, h⟩)
      · exact Or.inl h
      · exact Or.inr ⟨x, List.mem_cons_of_mem _ hx, h⟩
    have step : ∀ acc2, e ∈ (downloadLoop mapLower dl (i + 1) rest
        (downloadFile (dl i) (fileID it.ID ++ extFromURL mapLower it.URL) d).1 acc2).1 →
        e ∈ d ∨ ∃ x ∈ it :: rest, e = ⟨targetName mapLower x, false⟩ := by
      intro acc2 h
      rcases ih _ _ _ e h with h1 | ⟨x, hx, h1⟩
      · rcases downloadFile_entries _ _ _ e h1 with h2 | h2
        · exact Or.inl h2
        · exact Or.inr ⟨it, List.mem_cons_self _ _, h2⟩
      · exact Or.inr ⟨x, List.mem_cons_of_mem _ hx, h1⟩
    split at he
    · exact lift (ih _ _ _ e he)
    · simp only [] at he
      split at he
      · exact step _ he
      · exact step _ he

theorem downloadLoop_fixed (mapLower : GoString → GoString) (dl : Nat → Download)
    (items : List MediaItem) : ∀ (i : Nat) (d : Dir) (acc : List GoString),
    (∀ k it, items[k]? = some it → writesAt mapLower dl d (i + k) it (targetName mapLower it) →
      d.any (fun e => e.name == targetName mapLower it) = true) →
    (downloadLoop mapLower dl i items d acc).1 = d := by
  induction items with
  | nil =>
    intro i d acc _
    rfl
  | cons it rest ih =>
    intro i d acc h
    have hrest : ∀ k x, rest[k]? = some x →
        writesAt mapLower dl d (i + 1 + k) x (targetName mapLower x) →
        d.any (fun e => e.name == targetName mapLower x) = true := by
      intro k x hk hw
      refine h (k + 1) x (by simpa using hk) ?_
      have : i + (k + 1) = i + 1 + k := by omega
      rw [this]
      exact hw
    rw [downloadLoop]
    split
    · exact ih _ _ _ hrest
    · next hurl =>
      have hfix : (downloadFile (dl i) (fileID it.ID ++ extFromURL mapLower it.URL) d).1 = d := by
        apply downloadFile_fixed
        intro h1 h2 h3
        exact h 0 it (by simp) ⟨hurl, rfl, h1, h2, h3⟩
      simp only [hfix]
      split
      · exact ih _ _ _ hrest
      · exact ih _ _ _ hrest

theorem downloadFile_snd_congr (o : Download) (n : GoString) (d d2 : Dir)
    (h : hasDir d n = hasDir d2 n) : (downloadFile o n d).2 = (downloadFile o n d2).2 := by
  unfold downloadFile
  rw [h]
  split
  · rfl
  · split
    · rfl
    · split <;> rfl

theorem downloadLoop_snd_congr (mapLower : GoString → GoString) (dl : Nat → Download)
    (items : List MediaItem) : ∀ (i : Nat) (d d2 : Dir) (acc : List GoString),
    (∀ m, hasDir d m = hasDir d2 m) →
    (downloadLoop mapLower dl i items d acc).2 = (downloadLoop mapLower dl i items d2 acc).2 := by
  induction items with
  | nil =>
    intro i d d2 acc _
    rfl
  | cons it rest ih =>
    intro i d d2 acc h
    have hnext : ∀ m, hasDir
        (downloadFile (dl i) (fileID it.ID ++ extFromURL mapLower it.URL) d).1 m =
        hasDir (downloadFile (dl i) (fileID it.ID ++ extFromURL mapLower it.URL) d2).1 m := by
      intro m
      rw [downloadFile_hasDir, downloadFile_hasDir, h]
    rw [downloadLoop, downloadLoop]
    split
    · exact ih _ _ _ _ h
    · simp only [downloadFile_snd_congr (dl i) _ d d2 (h _)]
      split
      · exact ih _ _ _ _ hnext
      · exact ih _ _ _ _ hnext

theorem cleanupByIDs_reconciled (mapLower : GoString → GoString) (fs : FsOracle)
    (dl : Nat → Download) (d : Dir) (items : List MediaItem) :
    cleanupByIDs fs (reconcile mapLower fs dl d items).1 (keepIDsOf items) =
      (reconcile mapLower fs dl d items).1 := by
  cases hread : fs.readDirOk
  · unfold cleanupByIDs
    rw [hread]
    rfl
  · apply cleanupByIDs_of_stays
    intro e he
    unfold reconcile downloadMedia at he
    rcases downloadLoop_entries mapLower dl items 0 _ [] e he with h | ⟨it, hit, rfl⟩
    · exact (cleanupByIDs_mem_stays fs d _ hread e h).2
    · have hk : keepIDsOf items (fileID it.ID) = true := (keepIDsOf_iff items _).2 ⟨it, hit, rfl⟩
      simp [stays, kept, stem_targetName, hk]

theorem downloadMedia_reconciled (mapLower : GoString → GoString) (fs : FsOracle)
    (dl : Nat → Download) (d : Dir) (items : List MediaItem) :
    (downloadMedia mapLower dl (reconcile mapLower fs dl d items).1 items).1 =
      (reconcile mapLower fs dl d items).1 := by
  unfold downloadMedia
  apply downloadLoop_fixed
  intro k it hk hw
  obtain ⟨h1, h2, _⟩ := downloadLoop_spec mapLower dl items 0
    (cleanupByIDs fs d (keepIDsOf items)) []
  have hw2 : writesAt mapLower dl (cleanupByIDs fs d (keepIDsOf items)) (0 + k) it
      (targetName mapLower it) :=
    (writesAt_congr mapLower dl _ _ h1 (0 + k) it _).1 hw
  have hfile : hasFile (reconcile mapLower fs dl d items).1 (targetName mapLower it) = true :=
    (h2 _).2 (Or.inr ⟨k, it, hk, hw2⟩)
  obtain ⟨e, he, hn, _⟩ := (hasFile_iff _ _).1 hfile
  exact List.any_eq_true.2 ⟨e, he, by simpa using hn⟩

/-! ## Lemmas on the pipeline handle -/

theorem runConcatPlayback_pair (mapLower : GoString → GoString) (env : SpawnEnv) (s : State) :
    (runConcatPlayback mapLower env s).2 = (none, none) ∨
      ∃ q p, env.start (lit "ffmpeg") = some q ∧ env.start (playerName env) = some p ∧
        (runConcatPlayback mapLower env s).2 = (some ⟨some q⟩, some ⟨some p⟩) := by
  unfold runConcatPlayback playerName
  simp only []
  generalize (if env.readDirOk = true then listVideoFiles mapLower s.dir else []) = files
  split
  · exact Or.inl rfl
  · split
    · exact Or.inl rfl
    · split
      · exact Or.inl rfl
      · split
        · exact Or.inl rfl
        · next q hq =>
          split
          · next hv =>
            split
            · exact Or.inl rfl
            · next p hp => exact Or.inr ⟨q, p, hq, hp, rfl⟩
          · next hv =>
            split
            · exact Or.inl rfl
            · next p hp => exact Or.inr ⟨q, p, hq, hp, rfl⟩

theorem runConcatPlayback_spawn (mapLower : GoString → GoString) (env : SpawnEnv) (s : State)
    (q : Nat) (hreach : reachesSpawn mapLower env s = true)
    (hq : env.start (lit "ffmpeg") = some q) :
    (env.start (playerName env) = none →
      (runConcatPlayback mapLower env s).2 = (none, none) ∧
        (runConcatPlayback mapLower env s).1.killed = q :: s.killed) ∧
    (∀ p, env.start (playerName env) = some p →
      (runConcatPlayback mapLower env s).2 = (some ⟨some q⟩, some ⟨some p⟩) ∧
        (runConcatPlayback mapLower env s).1.killed = s.killed) := by
  simp only [reachesSpawn, Bool.and_eq_true, bne_iff_ne, ne_eq, Bool.not_eq_true'] at hreach
  obtain ⟨⟨⟨⟨h1, h2⟩, h3⟩, h4⟩, h5⟩ := hreach
  unfold runConcatPlayback playerName
  simp only [h1, if_true, h2, if_false, h3, h4, h5, Bool.not_true, Bool.or_false,
    Bool.false_eq_true, hq]
  by_cases hv : env.videoPlayerCmd = lit "mpv"
  · simp only [if_pos hv]
    refine ⟨fun hp => ?_, fun p hp => ?_⟩
    · rw [hp]
      exact ⟨rfl, rfl⟩
    · rw [hp]
      exact ⟨rfl, rfl⟩
  · simp only [if_neg hv]
    refine ⟨fun hp => ?_, fun p hp => ?_⟩
    · rw [hp]
      exact ⟨rfl, rfl⟩
    · rw [hp]
      exact ⟨rfl, rfl⟩

theorem handlePaired_of_none (s : State) (h1 : s.ffmpegCmd = none) (h2 : s.mplayerCmd = none) :
    handlePaired s :=
  Or.inl ⟨h1, h2⟩

theorem stopPlayback_none (s : State) (h : handlePaired s) :
    (stopPlayback s).ffmpegCmd = none ∧ (stopPlayback s).mplayerCmd = none := by
  obtain ⟨m, f, c, isd, lrd, d, kl, cn, la, nx, sc⟩ := s
  rcases h with ⟨h1, h2⟩ | ⟨q, p, h1, h2⟩
  · simp only at h1 h2
    subst h1 h2
    cases c <;> exact ⟨rfl, rfl⟩
  · simp only at h1 h2
    subst h1 h2
    cases c <;> exact ⟨rfl, rfl⟩

theorem playbackExit_none (ctx : Nat) (s : State) :
    (playbackExit ctx s).ffmpegCmd = none ∧ (playbackExit ctx s).mplayerCmd = none :=
  ⟨rfl, rfl⟩

theorem playbackStart_paired (mapLower : GoString → GoString) (env : SpawnEnv) (ctx : Nat)
    (s : State) (h : handlePaired s) : handlePaired (playbackStart mapLower env ctx s).1 := by
  unfold playbackStart
  split
  · exact h
  · simp only []
    rcases runConcatPlayback_pair mapLower env s with hr | ⟨q, p, _, _, hr⟩
    · rw [hr]
      simp only [if_true]
      exact Or.inl ⟨rfl, rfl⟩
    · rw [hr]
      simp only [reduceCtorEq, if_false]
      exact Or.inr ⟨q, p, rfl, rfl⟩

theorem syncAndPlay_paired (mapLower : GoString → GoString) (env : SyncEnv) (s : State)
    (h : handlePaired s) : handlePaired (syncAndPlay mapLower env s) := by
  have h0 : handlePaired { s with syncCalls := s.syncCalls + 1 } := h
  have hnone := stopPlayback_none _ h0
  unfold syncAndPlay
  simp only []
  split
  · exact h0
  · split
    · exact Or.inl hnone
    · split
      · exact Or.inl hnone
      · split
        · exact Or.inl hnone
        · exact Or.inl hnone

theorem mainIter_paired (mapLower : GoString → GoString) (format : Nat → GoString)
    (first : Bool) (t : Tick) (s : State) (h : handlePaired s) :
    handlePaired (mainIter mapLower format first t s).1 := by
  unfold mainIter
  simp only []
  split
  · exact h
  · split
    · exact syncAndPlay_paired mapLower t.sync _ h
    · split
      · exact syncAndPlay_paired mapLower t.sync _ h
      · exact h

theorem applyOp_paired (mapLower : GoString → GoString) (format : Nat → GoString)
    (s : State) (op : Op) (h : handlePaired s) : handlePaired (applyOp mapLower format s op) := by
  cases op with
  | iterate first t => exact mainIter_paired mapLower format first t s h
  | start env ctx => exact playbackStart_paired mapLower env ctx s h
  | exit ctx => exact Or.inl (playbackExit_none ctx s)

theorem foldl_applyOp_paired (mapLower : GoString → GoString) (format : Nat → GoString)
    (ops : List Op) : ∀ s, handlePaired s →
    handlePaired (ops.foldl (applyOp mapLower format) s) := by
  induction ops with
  | nil => exact fun s h => h
  | cons op ops ih => exact fun s h => ih _ (applyOp_paired mapLower format s op h)

theorem runOps_paired (mapLower : GoString → GoString) (format : Nat → GoString) (d : Dir)
    (ops : List Op) : handlePaired (runOps mapLower format d ops) :=
  foldl_applyOp_paired mapLower format ops _ (Or.inl ⟨rfl, rfl⟩)

/-! ## The claims -/

/-- C1 fails on the code: with the file `c.mkv` in the directory and the manifest
item `c` of url `http://h/y`, downloaded with success, `syncAndPlay` leaves
the video files `c.mkv` and `c.mp4`, and only `c.mp4` is a downloaded item. -/
theorem syncAndPlay_video_set_counterexample :
    listVideoFiles asciiOnly (syncAndPlay asciiOnly (okEnv oneItem) (initState staleDir)).dir
      = [lit "c.mkv", lit "c.mp4"] ∧
    (reconcile asciiOnly okFs allOk staleDir oneItem).2 = [lit "c.mp4"] ∧
    ¬ (∀ n, n ∈ listVideoFiles asciiOnly
          (syncAndPlay asciiOnly (okEnv oneItem) (initState staleDir)).dir ↔
        n ∈ (reconcile asciiOnly okFs allOk staleDir oneItem).2) := by
  refine ⟨by decide, by decide, fun h => ?_⟩
  have := (h (lit "c.mkv")).1 (by decide)
  revert this
  decide

/-- C1, amended: after a `syncAndPlay` that has a token and fetched the manifest
`items`, on a readable directory where every unlink succeeds, an empty manifest
leaves the directory as it was; otherwise the files of the directory are exactly
the files it had whose stem is empty or is `fileID` of a manifest id, together
with the files `fileID id ++ extFromURL url` written for an item with a url.
The names that `downloadMedia` returns are those of the downloads that succeed,
they are all present, and every file left has an empty stem or the stem of a
manifest item. -/
theorem syncAndPlay_directory (mapLower : GoString → GoString) (env : SyncEnv) (s : State)
    (items : List MediaItem) (hjwt : env.jwt ≠ []) (hfetch : fetchMedia env.media = .ok items)
    (hnodup : (s.dir.map DirEntry.name).Nodup) (hread : env.fs.readDirOk = true)
    (hrm : ∀ n, env.fs.removeOk n = true) :
    (items = [] → (syncAndPlay mapLower env s).dir = s.dir) ∧
    (items ≠ [] →
      (∀ n, hasFile (syncAndPlay mapLower env s).dir n = true ↔
        (hasFile s.dir n = true ∧ (stem n = [] ∨ ∃ it ∈ items, stem n = fileID it.ID)) ∨
          written mapLower env.dl s.dir items n) ∧
      (∀ n, n ∈ (reconcile mapLower env.fs env.dl s.dir items).2 ↔
        fetched mapLower env.dl s.dir items n) ∧
      (∀ n, fetched mapLower env.dl s.dir items n →
        hasFile (syncAndPlay mapLower env s).dir n = true) ∧
      (∀ n, hasFile (syncAndPlay mapLower env s).dir n = true →
        stem n = [] ∨ ∃ it ∈ items, stem n = fileID it.ID)) := by
  have hdir := syncAndPlay_dir mapLower env s items hjwt hfetch
  refine ⟨fun h => by rw [hdir, if_pos h], fun h => ?_⟩
  rw [hdir, if_neg h]
  obtain ⟨h1, h2⟩ := reconcile_spec mapLower env.fs env.dl s.dir items hnodup hread hrm
  refine ⟨h1, h2, fun n hn => ?_, fun n hn => ?_⟩
  · obtain ⟨k, it, hk, hw, _⟩ := hn
    exact (h1 n).2 (Or.inr ⟨k, it, hk, hw⟩)
  · rcases (h1 n).1 hn with ⟨_, hs⟩ | ⟨k, it, hk, hw⟩
    · exact hs
    · refine Or.inr ⟨it, List.getElem?_mem hk, ?_⟩
      rw [hw.2.1, stem_targetName]

/-- C1, amended, on the directory that holds `c.mkv` and the manifest item `c`. -/
theorem syncAndPlay_directory_witness :
    (okEnv oneItem).jwt ≠ [] ∧ fetchMedia (okEnv oneItem).media = .ok oneItem ∧
    ((initState staleDir).dir.map DirEntry.name).Nodup ∧
    (∀ n, hasFile (syncAndPlay asciiOnly (okEnv oneItem) (initState staleDir)).dir n = true →
      stem n = [] ∨ ∃ it ∈ oneItem, stem n = fileID it.ID) :=
  ⟨by decide, rfl, by decide,
    ((syncAndPlay_directory asciiOnly (okEnv oneItem) (initState staleDir) oneItem
      (by decide) rfl (by decide) rfl (fun _ => rfl)).2 (by decide)).2.2.2⟩

/-- C2: when the directory can be read and every unlink succeeds, `cleanupByIDs`
keeps an entry exactly when it is a directory, has an empty stem, or has its
stem in `keepIDs`, and removes every other entry: the non-directory entries
whose stem is non-empty and not in `keepIDs`. The entries that stay keep their
order. -/
theorem cleanupByIDs_removes_exactly (fs : FsOracle) (d : Dir) (keepIDs : GoString → Bool)
    (hnodup : (d.map DirEntry.name).Nodup) (hread : fs.readDirOk = true)
    (hrm : ∀ n, fs.removeOk n = true) :
    (∀ e, e ∈ cleanupByIDs fs d keepIDs ↔
      e ∈ d ∧ (e.isDir = true ∨ stem e.name = [] ∨ keepIDs (stem e.name) = true)) ∧
    (∀ e, e ∈ d → e ∉ cleanupByIDs fs d keepIDs →
      e.isDir = false ∧ stem e.name ≠ [] ∧ keepIDs (stem e.name) = false) ∧
    cleanupByIDs fs d keepIDs = d.filter (kept keepIDs) := by
  have heq := cleanupByIDs_eq_filter fs d keepIDs hnodup hread hrm
  have hmem : ∀ e, e ∈ cleanupByIDs fs d keepIDs ↔
      e ∈ d ∧ (e.isDir = true ∨ stem e.name = [] ∨ keepIDs (stem e.name) = true) := by
    intro e
    rw [heq, List.mem_filter]
    simp [kept, or_assoc]
  refine ⟨hmem, ?_, heq⟩
  intro e he hne
  have h := fun hk => hne ((hmem e).2 ⟨he, hk⟩)
  refine ⟨?_, ?_, ?_⟩
  · cases hd : e.isDir
    · rfl
    · exact absurd (Or.inl hd) h
  · exact fun hs => h (Or.inr (Or.inl hs))
  · cases hk : keepIDs (stem e.name)
    · rfl
    · exact absurd (Or.inr (Or.inr hk)) h

/-- C2, on the files `a_b.mkv` and `c.mp4` with `keepIDs` holding `c`:
`a_b.mkv` is removed and `c.mp4` stays. -/
theorem cleanupByIDs_removes_exactly_witness :
    cleanupByIDs okFs [⟨lit "a_b.mkv", false⟩, ⟨lit "c.mp4", false⟩] (fun k => k == lit "c")
      = [⟨lit "c.mp4", false⟩] :=
  (cleanupByIDs_removes_exactly okFs [⟨lit "a_b.mkv", false⟩, ⟨lit "c.mp4", false⟩]
    (fun k => k == lit "c") (by decide) rfl (fun _ => rfl)).2.2.trans (by decide)

/-- C3 fails on the code: with a pipeline running and a token present, a
`syncAndPlay` whose `fetchMedia` fails on the network returns with both
processes killed and both handles nil. -/
theorem syncAndPlay_fetch_error_counterexample :
    (∃ e, fetchMedia offlineEnv.media = .error e) ∧
    playingState.ffmpegCmd = some ⟨some 1⟩ ∧ playingState.mplayerCmd = some ⟨some 2⟩ ∧
    (syncAndPlay asciiOnly offlineEnv playingState).ffmpegCmd = none ∧
    (syncAndPlay asciiOnly offlineEnv playingState).mplayerCmd = none ∧
    (syncAndPlay asciiOnly offlineEnv playingState).killed = [1, 2] ∧
    ¬ ((syncAndPlay asciiOnly offlineEnv playingState).ffmpegCmd = playingState.ffmpegCmd ∧
      (syncAndPlay asciiOnly offlineEnv playingState).mplayerCmd = playingState.mplayerCmd) := by
  refine ⟨⟨_, rfl⟩, ?_⟩
  decide

/-- C3, amended: `syncAndPlay` stops the pipeline before it calls `fetchMedia`.
With a pipeline running (player `p`, muxer `q`) and a token present, if
`fetchMedia` returns an error then `syncAndPlay` returns with the player killed,
then the muxer, both handles nil, the cancel function called and cleared, no
playback goroutine launched and the media directory untouched. -/
theorem syncAndPlay_fetch_error (mapLower : GoString → GoString) (env : SyncEnv) (s : State)
    (p q : Nat) (e : Err) (hplayer : s.mplayerCmd = some ⟨some p⟩)
    (hmuxer : s.ffmpegCmd = some ⟨some q⟩) (hjwt : env.jwt ≠ [])
    (hfetch : fetchMedia env.media = .error e) :
    (syncAndPlay mapLower env s).mplayerCmd = none ∧
    (syncAndPlay mapLower env s).ffmpegCmd = none ∧
    (syncAndPlay mapLower env s).killed = q :: p :: s.killed ∧
    (syncAndPlay mapLower env s).playCancel = none ∧
    (syncAndPlay mapLower env s).cancelled = s.playCancel.toList ++ s.cancelled ∧
    (syncAndPlay mapLower env s).launched = s.launched ∧
    (syncAndPlay mapLower env s).dir = s.dir := by
  unfold syncAndPlay
  simp only [if_neg hjwt, hfetch]
  rcases s with ⟨m, f, _ | c, _, _, _, _, _, _, _, _⟩ <;>
    (simp only at hplayer hmuxer
     subst hplayer hmuxer
     exact ⟨rfl, rfl, rfl, rfl, rfl, rfl, rfl⟩)

/-- C3, amended, on the running pipeline of `playingState` with the network down. -/
theorem syncAndPlay_fetch_error_witness :
    playingState.mplayerCmd = some ⟨some 2⟩ ∧ playingState.ffmpegCmd = some ⟨some 1⟩ ∧
    offlineEnv.jwt ≠ [] ∧ fetchMedia offlineEnv.media = .error .transport ∧
    (syncAndPlay asciiOnly offlineEnv playingState).mplayerCmd = none ∧
    (syncAndPlay asciiOnly offlineEnv playingState).ffmpegCmd = none :=
  ⟨rfl, rfl, by decide, rfl,
    (syncAndPlay_fetch_error asciiOnly offlineEnv playingState 2 1 .transport rfl rfl
      (by decide) rfl).1,
    (syncAndPlay_fetch_error asciiOnly offlineEnv playingState 2 1 .transport rfl rfl
      (by decide) rfl).2.1⟩

/-- C4 fails on the code: on status `200` (or `201`) with a JSON body that has no
`accessToken`, or an empty one, `checkIn` returns the empty token and a nil
error, the same as on status `401`, and `doCheckIn` prints that the device
awaits its group assignment `(401)`, leaving the token file as it is. -/
theorem checkIn_empty_token_is_pending :
    checkIn (lit "AA:BB:CC:DD:EE:FF") (.response 200 (.object none)) = .ok [] ∧
    checkIn (lit "AA:BB:CC:DD:EE:FF") (.response 201 (.object (some []))) = .ok [] ∧
    checkIn (lit "AA:BB:CC:DD:EE:FF") (.response 401 .malformed) = .ok [] ∧
    doCheckIn (lit "AA:BB:CC:DD:EE:FF") (.response 200 (.object none)) true []
      = ([], .awaitingGroup) ∧
    doCheckIn (lit "AA:BB:CC:DD:EE:FF") (.response 401 .malformed) true []
      = ([], .awaitingGroup) :=
  ⟨rfl, rfl, rfl, rfl, rfl⟩

/-- C5: over iterations of the loop of `main` whose sampled dates never decrease,
from any state, at most one iteration on a given date takes the `04:00` branch;
an iteration that takes it reads hour `4` and minute `0` on a date that differs
from `lastRunDate`, sets `lastRunDate` to that date and calls `syncAndPlay` once. -/
theorem sync4AM_once_per_date (mapLower : GoString → GoString) (format : Nat → GoString)
    (first : Bool) (s : State) (ticks : List Tick)
    (hmono : ticks.Pairwise (fun a b => a.now.date ≤ b.now.date)) (date : Nat) :
    ((mainLoopFrom mapLower format first s ticks).filter
      (fun st => decide (st.branch = .sync4AM) && decide (st.tick.now.date = date))).length ≤ 1 ∧
    ∀ st ∈ mainLoopFrom mapLower format first s ticks, st.branch = .sync4AM →
      st.tick.now.hour = 4 ∧ st.tick.now.minute = 0 ∧
      format st.tick.now.date ≠ st.pre.lastRunDate ∧
      st.post.lastRunDate = format st.tick.now.date ∧
      st.post.syncCalls = st.pre.syncCalls + 1 := by
  refine ⟨sync4AM_count mapLower format date ticks first s hmono, ?_⟩
  intro st hst hb
  obtain ⟨_, h2, h3⟩ := mainLoopFrom_mem mapLower format ticks first s st hst
  obtain ⟨_, _, f3, f4, _, f6, _⟩ := mainIter_facts mapLower format st.first st.tick st.pre
  rw [← h2] at f3 f4 f6
  rw [← h3] at f4 f6
  obtain ⟨_, _, g1, g2, g3⟩ := f3.1 hb
  refine ⟨g1, g2, g3, ?_, ?_⟩
  · rw [f4, if_pos hb]
  · rw [f6, hb]
    rfl

/-- C5 on the clock `03:59`, `04:00`, `04:01`, then `04:00` the next day, from a
state after the initial sync: the `04:00` branch is taken twice, once per date. -/
theorem sync4AM_once_per_date_witness :
    fourAMTicks.Pairwise (fun a b => a.now.date ≤ b.now.date) ∧
    ((mainLoopFrom asciiOnly dayStamp false playingState fourAMTicks).filter
      (fun st => decide (st.branch = .sync4AM) && decide (st.tick.now.date = 1))).length ≤ 1 ∧
    (mainLoopFrom asciiOnly dayStamp false playingState fourAMTicks).map Step.branch
      = [.idle, .sync4AM, .idle, .sync4AM] :=
  ⟨by decide,
    (sync4AM_once_per_date asciiOnly dayStamp false playingState fourAMTicks (by decide) 1).1,
    by decide⟩

/-- C6: in the loop of `main` the iteration that first sees a non-empty token
takes the initial-sync branch and calls `syncAndPlay` once, whatever the clock
reads; no other iteration takes that branch; and an iteration that sees an
empty token takes no branch and leaves the state as it is. -/
theorem initial_sync_on_first_token (mapLower : GoString → GoString) (format : Nat → GoString)
    (d : Dir) (ticks : List Tick) (k : Nat) (st : Step)
    (hk : (mainLoop mapLower format d ticks)[k]? = some st)
    (hbefore : ∀ i, i < k → ∀ si, (mainLoop mapLower format d ticks)[i]? = some si →
      seenToken si.first si.tick = [])
    (hseen : seenToken st.first st.tick ≠ []) :
    st.branch = .initialSync ∧ st.post.syncCalls = st.pre.syncCalls + 1 ∧
    (∀ i si, (mainLoop mapLower format d ticks)[i]? = some si → i ≠ k →
      si.branch ≠ .initialSync) ∧
    (∀ si ∈ mainLoop mapLower format d ticks, seenToken si.first si.tick = [] →
      si.branch = .noToken ∧ si.post = si.pre) := by
  obtain ⟨h1, h2, h3⟩ := first_token_initialSync mapLower format ticks true (initState d) k st
    rfl hk hbefore hseen
  refine ⟨h1, h2, h3, ?_⟩
  intro si hsi hempty
  obtain ⟨_, g2, g3⟩ := mainLoopFrom_mem mapLower format ticks true (initState d) si hsi
  rw [mainIter_noToken mapLower format si.first si.tick si.pre hempty] at g2 g3
  exact ⟨g2, g3⟩

/-- C6 on a loop whose second iteration, at `04:00`, is the first to see a token:
it takes the initial-sync branch, and the branches are as listed. -/
theorem initial_sync_on_first_token_witness :
    ∃ st, (mainLoop asciiOnly dayStamp [] lateTokenTicks)[1]? = some st ∧
      (∀ i, i < 1 → ∀ si, (mainLoop asciiOnly dayStamp [] lateTokenTicks)[i]? = some si →
        seenToken si.first si.tick = []) ∧
      seenToken st.first st.tick ≠ [] ∧ st.tick.now = ⟨1, 4, 0⟩ ∧
      st.branch = .initialSync ∧ st.post.syncCalls = st.pre.syncCalls + 1 ∧
      (mainLoop asciiOnly dayStamp [] lateTokenTicks).map Step.branch
        = [.noToken, .initialSync, .idle] := by
  have hb : ∀ i, i < 1 → ∀ si, (mainLoop asciiOnly dayStamp [] lateTokenTicks)[i]? = some si →
      seenToken si.first si.tick = [] := by
    intro i hi si hsi
    obtain rfl : i = 0 := by omega
    cases hsi
    rfl
  have h := initial_sync_on_first_token asciiOnly dayStamp [] lateTokenTicks 1 _ rfl hb
    (by decide)
  exact ⟨_, rfl, hb, by decide, rfl, h.1, h.2.1, by decide⟩

/-- C7 fails on the code: the first iteration sees a token at `12:00` and calls
`syncAndPlay`, whose `fetchMedia` fails; the next iteration sees the token at
`12:01` and is idle: `syncAndPlay` is not called again. -/
theorem failed_sync_retry_counterexample :
    (∃ e, fetchMedia (offlineTick 1 12 0).sync.media = .error e) ∧
    seenToken false (offlineTick 1 12 1) ≠ [] ∧
    (mainLoop asciiOnly dayStamp [] [offlineTick 1 12 0, offlineTick 1 12 1]).map Step.branch
      = [.initialSync, .idle] ∧
    (mainLoop asciiOnly dayStamp [] [offlineTick 1 12 0, offlineTick 1 12 1]).map
      (fun st => st.post.syncCalls) = [1, 1] := by
  refine ⟨⟨_, rfl⟩, ?_⟩
  decide

/-- C7, amended: in a state reached by an iteration that called `syncAndPlay`,
whether its `fetchMedia` failed or not, the next iteration that sees a
non-empty token calls `syncAndPlay` again exactly when the clock reads `04:00`
on a date that differs from `lastRunDate`; otherwise it is idle and changes
nothing. After a failed `04:00` sync no iteration of the same date retries. -/
theorem sync_again_only_at_4AM (mapLower : GoString → GoString) (format : Nat → GoString)
    (first : Bool) (s : State) (t1 t2 : Tick)
    (hsync : (mainIter mapLower format first t1 s).2.syncs = true) (hseen : t2.jwt ≠ []) :
    ((mainIter mapLower format false t2 (mainIter mapLower format first t1 s).1).2.syncs = true ↔
      t2.now.hour = 4 ∧ t2.now.minute = 0 ∧
        format t2.now.date ≠ (mainIter mapLower format first t1 s).1.lastRunDate) ∧
    ((mainIter mapLower format false t2 (mainIter mapLower format first t1 s).1).2.syncs = false →
      mainIter mapLower format false t2 (mainIter mapLower format first t1 s).1
        = ((mainIter mapLower format first t1 s).1, .idle)) ∧
    ((mainIter mapLower format first t1 s).2 = .sync4AM → t2.now.date = t1.now.date →
      mainIter mapLower format false t2 (mainIter mapLower format first t1 s).1
        = ((mainIter mapLower format first t1 s).1, .idle)) := by
  obtain ⟨_, f2, f3, f4, f5, _⟩ := mainIter_facts mapLower format first t1 s
  have hdone : (mainIter mapLower format first t1 s).1.initialSyncDone = true := by
    rw [f5]
    cases hb : (mainIter mapLower format first t1 s).2
    · rw [hb] at hsync
      exact absurd hsync (by decide)
    · simp
    · rw [Bool.or_eq_true]
      exact Or.inl (f3.1 hb).2.1
    · rw [hb] at hsync
      exact absurd hsync (by decide)
  have hseen2 : seenToken false t2 ≠ [] := by
    unfold seenToken
    rw [if_neg hseen]
    exact hseen
  have harmed := mainIter_armed mapLower format false t2 _ hseen2 hdone
  refine ⟨?_, ?_, ?_⟩
  · rw [harmed]
    split
    · next hc => simp [Branch.syncs, hc]
    · next hc => simp only [Branch.syncs, Bool.false_eq_true, false_iff]; exact hc
  · intro hno
    rw [harmed] at hno ⊢
    split
    · next hc =>
      rw [if_pos hc] at hno
      simp [Branch.syncs] at hno
    · rfl
  · intro hb hdate
    rw [harmed, if_neg]
    rintro ⟨_, _, hne⟩
    rw [f4, if_pos hb, hdate] at hne
    exact hne rfl

/-- C7, amended, after the failed initial sync at `12:00`: the iteration of
`12:01` is idle, and the one of `04:00` calls `syncAndPlay` again. -/
theorem sync_again_only_at_4AM_witness :
    (mainIter asciiOnly dayStamp true (offlineTick 1 12 0) (initState [])).2.syncs = true ∧
    (offlineTick 1 12 1).jwt ≠ [] ∧
    (mainIter asciiOnly dayStamp false (offlineTick 1 12 1)
      (mainIter asciiOnly dayStamp true (offlineTick 1 12 0) (initState [])).1).2 = .idle ∧
    (mainIter asciiOnly dayStamp false (offlineTick 2 4 0)
      (mainIter asciiOnly dayStamp true (offlineTick 1 12 0) (initState [])).1).2 = .sync4AM :=
  ⟨rfl, by decide,
    congrArg Prod.snd ((sync_again_only_at_4AM asciiOnly dayStamp true (initState [])
      (offlineTick 1 12 0) (offlineTick 1 12 1) rfl (by decide)).2.1 rfl),
    by decide⟩

/-- C8: `fileID` is idempotent: on every byte string `x`, the empty one and
those that are not valid UTF-8 included, `fileID (fileID x) = fileID x`. -/
theorem fileID_idempotent (x : GoString) : fileID (fileID x) = fileID x :=
  fileID_of_safe (fileID x) (fileID_ne_nil x) (fileID_safe x)

/-- C9: `fileID id` is `media` when `id` is empty; otherwise it has one byte per
rune of `id`, the rune itself when it is in `a-z`, `A-Z`, `0-9`, `-`, `_` and
`_` when it is not. It is never empty and holds only bytes of that set, so no
dot, slash or quote. -/
theorem fileID_characterization (id : GoString) :
    fileID id = (if id = [] then lit "media" else (runes id).map sanitizeRune) ∧
    (fileID id).length = (if id = [] then 5 else (runes id).length) ∧
    fileID id ≠ [] ∧
    ∀ c ∈ fileID id, safeRune c = true ∧ c ≠ 0x2E ∧ c ≠ 0x2F ∧ c ≠ 0x27 ∧ c ≠ 0x22 := by
  refine ⟨fileID_eq id, ?_, fileID_ne_nil id, ?_⟩
  · rw [fileID_eq]
    split
    · rfl
    · rw [List.length_map]
  · intro c hc
    have h := fileID_safe id c hc
    refine ⟨h, ?_, ?_, ?_, ?_⟩ <;> (rintro rfl; revert h; decide)

/-- C10: `extFromURL url` is the first of `.mkv`, `.mp4`, `.avi`, `.webm` that is a
substring of the lowercased url, and `.mp4` when none is; it is always one of
the four. The lowercased url of an ASCII url is the url with each letter `A` to
`Z` replaced by `a` to `z`; that of any other url is its mapping through
`unicode.ToLower`. `http://h/x.mkv` gives `.mkv`, `http://h/y` gives `.mp4`,
`HTTP://H/X.MKV` gives `.mkv`, and `http://h/a.mp4.MKV` gives `.mkv`, the first
of the list. -/
theorem extFromURL_first_match (mapLower : GoString → GoString) (url : GoString) :
    extFromURL mapLower url =
      ([lit ".mkv", lit ".mp4", lit ".avi", lit ".webm"].find?
        (fun e => decide (e <:+: ToLower mapLower url))).getD (lit ".mp4") ∧
    extFromURL mapLower url ∈ [lit ".mkv", lit ".mp4", lit ".avi", lit ".webm"] ∧
    extFromURL mapLower (lit "http://h/x.mkv") = lit ".mkv" ∧
    extFromURL mapLower (lit "http://h/y") = lit ".mp4" ∧
    ((∀ c ∈ url, c < 0x80) →
      ToLower mapLower url = url.map lowerASCII ∧
      extFromURL mapLower url =
        ([lit ".mkv", lit ".mp4", lit ".avi", lit ".webm"].find?
          (fun e => decide (e <:+: url.map lowerASCII))).getD (lit ".mp4")) ∧
    ((¬ ∀ c ∈ url, c < 0x80) → ToLower mapLower url = mapLower url) ∧
    extFromURL mapLower (lit "HTTP://H/X.MKV") = lit ".mkv" ∧
    extFromURL mapLower (lit "http://h/a.mp4.MKV") = lit ".mkv" ∧
    extFromURL mapLower (lit "http://h/clip.WebM?v=1") = lit ".webm" ∧
    extFromURL mapLower (lit "HTTP://H/Y.TXT") = lit ".mp4" := by
  refine ⟨extLoop_eq_find _ _, extFromURL_mem mapLower url, rfl, rfl, fun h => ?_,
    fun h => ToLower_not_ascii mapLower url h, rfl, rfl, rfl, rfl⟩
  have hl := ToLower_ascii mapLower url h
  refine ⟨hl, ?_⟩
  rw [← hl]
  exact extLoop_eq_find _ _

/-- C11: running the reconciliation (`cleanupByIDs` with the keys `fileID id`, then
`downloadMedia`) a second time, with the same manifest, the same download
outcomes and the same answers of the file system, leaves the directory after
the second run equal to the one after the first, and returns the same
downloaded names. The cleanup of the second run removes nothing, since the stem
of `fileID id ++ extFromURL url` is `fileID id`. -/
theorem reconcile_twice (mapLower : GoString → GoString) (fs : FsOracle) (dl : Nat → Download)
    (d : Dir) (items : List MediaItem) :
    (reconcile mapLower fs dl (reconcile mapLower fs dl d items).1 items).1 =
      (reconcile mapLower fs dl d items).1 ∧
    (∀ n, hasFile (reconcile mapLower fs dl (reconcile mapLower fs dl d items).1 items).1 n =
      hasFile (reconcile mapLower fs dl d items).1 n) ∧
    (reconcile mapLower fs dl (reconcile mapLower fs dl d items).1 items).2 =
      (reconcile mapLower fs dl d items).2 ∧
    cleanupByIDs fs (reconcile mapLower fs dl d items).1 (keepIDsOf items) =
      (reconcile mapLower fs dl d items).1 ∧
    (∀ it : MediaItem, stem (fileID it.ID ++ extFromURL mapLower it.URL) = fileID it.ID) := by
  have hclean := cleanupByIDs_reconciled mapLower fs dl d items
  have hdir : (reconcile mapLower fs dl (reconcile mapLower fs dl d items).1 items).1 =
      (reconcile mapLower fs dl d items).1 := by
    conv_lhs => unfold reconcile
    show (downloadMedia mapLower dl
      (cleanupByIDs fs (reconcile mapLower fs dl d items).1 (keepIDsOf items)) items).1 = _
    rw [hclean]
    exact downloadMedia_reconciled mapLower fs dl d items
  refine ⟨hdir, fun n => by rw [hdir], ?_, hclean, fun it => stem_targetName mapLower it⟩
  conv_lhs => unfold reconcile
  show (downloadMedia mapLower dl
    (cleanupByIDs fs (reconcile mapLower fs dl d items).1 (keepIDsOf items)) items).2 = _
  rw [hclean]
  unfold reconcile downloadMedia
  exact downloadLoop_snd_congr mapLower dl items 0 _ _ []
    (fun m => (downloadLoop_spec mapLower dl items 0 _ []).1 m)

/-- C12: after every sequence of the operations that write the pipeline handle
under the mutex (an iteration of `main` with its `syncAndPlay` and
`stopPlayback`, the start of a playback goroutine, the cleanup of its waiter),
`ffmpegCmd` and `mplayerCmd` are both nil or both started. In every state
`runConcatPlayback` returns `(nil, nil)` or the two processes it started; when
the muxer starts and the player does not, the muxer is killed and `(nil, nil)`
is returned. In every state so reached `stopPlayback` leaves both handles nil
and so does the cleanup of the waiter. -/
theorem pipeline_handle_paired (mapLower : GoString → GoString) (format : Nat → GoString)
    (d : Dir) (ops : List Op) (env : SpawnEnv) (ctx : Nat) :
    handlePaired (runOps mapLower format d ops) ∧
    (∀ s : State, (runConcatPlayback mapLower env s).2 = (none, none) ∨
      ∃ q p, env.start (lit "ffmpeg") = some q ∧ env.start (playerName env) = some p ∧
        (runConcatPlayback mapLower env s).2 = (some ⟨some q⟩, some ⟨some p⟩)) ∧
    (∀ (s : State) (q : Nat), reachesSpawn mapLower env s = true →
      env.start (lit "ffmpeg") = some q → env.start (playerName env) = none →
      (runConcatPlayback mapLower env s).2 = (none, none) ∧
        (runConcatPlayback mapLower env s).1.killed = q :: s.killed) ∧
    handlePaired (playbackStart mapLower env ctx (runOps mapLower format d ops)).1 ∧
    ((stopPlayback (runOps mapLower format d ops)).ffmpegCmd = none ∧
      (stopPlayback (runOps mapLower format d ops)).mplayerCmd = none) ∧
    ((playbackExit ctx (runOps mapLower format d ops)).ffmpegCmd = none ∧
      (playbackExit ctx (runOps mapLower format d ops)).mplayerCmd = none) := by
  have hp := runOps_paired mapLower format d ops
  exact ⟨hp, runConcatPlayback_pair mapLower env,
    fun s q hr hq hn => (runConcatPlayback_spawn mapLower env s q hr hq).1 hn,
    playbackStart_paired mapLower env ctx _ hp, stopPlayback_none _ hp,
    playbackExit_none ctx _⟩

end Kiosk
